import Mathlib

/-!
# plog: an append-only persistent log

A shallow embedding of `persistlog.go` (package `persistentlog`).

* Bytes are natural numbers (a real byte is `< 256`); byte slices and Go strings are
  `List Nat`.  Every theorem below holds for all lists, hence for all real byte slices.
* Go `int` is 64 bits wide and never overflows on the values that occur here
  (positions are bounded by the file size, the decoded length by `2^32`), so `int`
  values are `Nat`.  `uint32(dataLen)` wraps and is written `% 2^32`.
* The digest of the hash library (`xxhash.New()`, `Write`, `Sum`) is not part of this
  repository.  The functions take the 64-bit digest function as the parameter `xx`;
  `xxhash64` further down is the XXH64 algorithm (seed 0) that the library implements.
* The file system is a map from path to content; every path names one file.  The
  outcome of each operating-system call that can fail is an explicit argument.
* `readLogFromFile` fills its buffer with one `file.Read` and drops the byte count.
  One `Read` call of Go's `os.File` transfers at most `maxRW = 2^30` bytes, so the
  buffer holds the first `2^30` bytes of the file and zeros after them (`readBuffer`).
-/

namespace Plog

/-! ## Byte codecs -/

/-- The 64-bit digest function behind `xxhash.New()`: message bytes to digest. -/
abbrev Sum64 := List Nat → Nat

/-- The constant `HASHLEN` of `readLogFromFile`. -/
def HASHLEN : Nat := 8

/-- The constant `INTLEN` of `readLogFromFile`. -/
def INTLEN : Nat := 4

/-- `binary.BigEndian.PutUint32(buf, v)` on a 4-byte buffer: the buffer afterwards. -/
def putUint32 (v : Nat) : List Nat :=
  [v / 2 ^ 24 % 256, v / 2 ^ 16 % 256, v / 2 ^ 8 % 256, v % 256]

/-- `binary.BigEndian.Uint32(b)`: reads `b[0..3]`.  The scan only calls it on its
4-byte buffer `rawDataLen`; shorter slices (a panic in Go) do not occur and give 0. -/
def uint32 : List Nat → Nat
  | b0 :: b1 :: b2 :: b3 :: _ => b0 * 2 ^ 24 + b1 * 2 ^ 16 + b2 * 2 ^ 8 + b3
  | _ => 0

/-- `hashFunc.Sum(nil)`: the digest as 8 bytes, most significant byte first. -/
def sumBytes (d : Nat) : List Nat :=
  [d / 2 ^ 56 % 256, d / 2 ^ 48 % 256, d / 2 ^ 40 % 256, d / 2 ^ 32 % 256,
   d / 2 ^ 24 % 256, d / 2 ^ 16 % 256, d / 2 ^ 8 % 256, d % 256]

/-- `getChecksum(valueLen, value)`: hashes `append(valueLen, value...)` and returns
the 8 digest bytes. -/
def getChecksum (xx : Sum64) (valueLen value : List Nat) : List Nat :=
  sumBytes (xx (valueLen ++ value))

/-- The slice expression `b[lo:hi]`; `none` is Go's slice-bounds panic. -/
def slice (b : List Nat) (lo hi : Nat) : Option (List Nat) :=
  if lo ≤ hi ∧ hi ≤ b.length then some ((b.drop lo).take (hi - lo)) else none

/-! ## The recovery scan (`readLogFromFile`, the `for` loop) -/

/-- The variables of the scan loop; `maxLogIndex` is the field `p.maxLogIndex`. -/
structure ScanState where
  pos : Nat
  lastValidPos : Nat
  maxLogIndex : Nat
  deriving DecidableEq, Repr

/-- How one execution of the loop body ends. -/
inductive Step where
  | next (s : ScanState)
  | brk (s : ScanState)
  | panic
  deriving DecidableEq, Repr

/-- Ways in which the scan does not run to completion: a slice out of range, or the
iteration budget of the model used up. -/
inductive Abort where
  | indexOutOfRange
  | outOfFuel
  deriving DecidableEq, Repr

/-- One execution of the body of `for pos < int(filesize)`. -/
def scanBody (xx : Sum64) (raw : List Nat) (s : ScanState) : Step :=
  let filesize := raw.length
  if s.pos + HASHLEN ≤ filesize then
    match slice raw s.pos (s.pos + HASHLEN) with
    | none => Step.panic
    | some checksum =>
      let pos := s.pos + HASHLEN
      if pos + INTLEN ≤ filesize then
        match slice raw pos (pos + INTLEN) with
        | none => Step.panic
        | some rawDataLen =>
          let pos := pos + INTLEN
          let datalenInt := uint32 rawDataLen
          if pos + datalenInt ≤ filesize then
            match slice raw pos (pos + datalenInt) with
            | none => Step.panic
            | some dataContent =>
              if getChecksum xx rawDataLen dataContent ≠ checksum then
                Step.brk { s with pos := pos }
              else
                Step.next { pos := pos + datalenInt, lastValidPos := pos + datalenInt,
                            maxLogIndex := s.maxLogIndex + 1 }
          else Step.brk { s with pos := pos }
      else Step.brk { s with pos := pos }
  else Step.brk s

/-- The loop `for pos < int(filesize) { ... }`, with a budget of iterations. -/
def scanLoop (xx : Sum64) (raw : List Nat) : Nat → ScanState → Except Abort ScanState
  | 0, s => if s.pos < raw.length then Except.error Abort.outOfFuel else Except.ok s
  | fuel + 1, s =>
    if s.pos < raw.length then
      match scanBody xx raw s with
      | Step.next s' => scanLoop xx raw fuel s'
      | Step.brk s' => Except.ok s'
      | Step.panic => Except.error Abort.indexOutOfRange
    else Except.ok s

/-- The scan of a whole file content, from `pos := 0`, `lastValidPos := 0` and a
handle whose `maxLogIndex` is `count0`.  The budget is `filesize / 12 + 1`. -/
def scanFile (xx : Sum64) (raw : List Nat) (count0 : Nat) : Except Abort ScanState :=
  scanLoop xx raw (raw.length / 12 + 1) { pos := 0, lastValidPos := 0, maxLogIndex := count0 }

/-! ## XXH64, the digest computed by `xxhash.New()` / `Write` / `Sum64` (seed 0) -/

/-- The first of the five 64-bit primes of XXH64, `0x9E3779B185EBCA87`. -/
def prime64_1 : Nat := 11400714785074694791

/-- The second prime, `0xC2B2AE3D27D4EB4F`. -/
def prime64_2 : Nat := 14029467366897019727

/-- The third prime, `0x165667B19E3779F9`. -/
def prime64_3 : Nat := 1609587929392839161

/-- The fourth prime, `0x85EBCA77C2B2AE63`. -/
def prime64_4 : Nat := 9650029242287828579

/-- The fifth prime, `0x27D4EB2F165667C5`. -/
def prime64_5 : Nat := 2870177450012600261

/-- `bits.RotateLeft64(x, r)` for `x < 2^64`, `0 < r < 64`. -/
def rol64 (x r : Nat) : Nat := (x * 2 ^ r) % 2 ^ 64 + x / 2 ^ (64 - r)

/-- Little-endian value of a byte slice (`binary.LittleEndian.Uint64` / `Uint32`). -/
def leValue : List Nat → Nat
  | [] => 0
  | b :: bs => b + 256 * leValue bs

/-- The XXH64 round: `acc += input * prime2; acc = rol31(acc); acc *= prime1`. -/
def round64 (acc input : Nat) : Nat :=
  rol64 ((acc + input * prime64_2) % 2 ^ 64) 31 * prime64_1 % 2 ^ 64

/-- The XXH64 merge round. -/
def mergeRound (acc val : Nat) : Nat :=
  ((acc ^^^ round64 0 val) * prime64_1 + prime64_4) % 2 ^ 64

/-- The four accumulators of the 32-byte stripe loop. -/
structure Lanes where
  v1 : Nat
  v2 : Nat
  v3 : Nat
  v4 : Nat

/-- The stripe loop: consumes 32 bytes per iteration while at least 32 remain. -/
def stripes : Nat → List Nat → Lanes → Lanes × List Nat
  | 0, b, v => (v, b)
  | fuel + 1, b, v =>
    if 32 ≤ b.length then
      stripes fuel (b.drop 32)
        { v1 := round64 v.v1 (leValue (b.take 8)),
          v2 := round64 v.v2 (leValue ((b.drop 8).take 8)),
          v3 := round64 v.v3 (leValue ((b.drop 16).take 8)),
          v4 := round64 v.v4 (leValue ((b.drop 24).take 8)) }
    else (v, b)

/-- The loop over the remaining 8-byte words. -/
def tail8 : Nat → List Nat → Nat → Nat × List Nat
  | 0, b, h => (h, b)
  | fuel + 1, b, h =>
    if 8 ≤ b.length then
      tail8 fuel (b.drop 8)
        ((rol64 (h ^^^ round64 0 (leValue (b.take 8))) 27 * prime64_1 + prime64_4) % 2 ^ 64)
    else (h, b)

/-- The step for a remaining 4-byte word. -/
def tail4 (b : List Nat) (h : Nat) : Nat × List Nat :=
  if 4 ≤ b.length then
    ((rol64 (h ^^^ (leValue (b.take 4) * prime64_1 % 2 ^ 64)) 23 * prime64_2 + prime64_3) % 2 ^ 64,
      b.drop 4)
  else (h, b)

/-- The loop over the remaining single bytes. -/
def tail1 : List Nat → Nat → Nat
  | [], h => h
  | c :: b, h => tail1 b (rol64 (h ^^^ (c * prime64_5 % 2 ^ 64)) 11 * prime64_1 % 2 ^ 64)

/-- The final mixing. -/
def avalanche (h : Nat) : Nat :=
  let h := h ^^^ (h / 2 ^ 33)
  let h := h * prime64_2 % 2 ^ 64
  let h := h ^^^ (h / 2 ^ 29)
  let h := h * prime64_3 % 2 ^ 64
  h ^^^ (h / 2 ^ 32)

/-- XXH64 with seed 0 of a whole message: what `Sum64` returns after one `Write`. -/
def xxhash64 (b : List Nat) : Nat :=
  let n := b.length
  let (h, rest) :=
    if 32 ≤ n then
      let (v, rest) := stripes n b
        { v1 := (prime64_1 + prime64_2) % 2 ^ 64, v2 := prime64_2, v3 := 0,
          v4 := 2 ^ 64 - prime64_1 }
      let h := (rol64 v.v1 1 + rol64 v.v2 7 + rol64 v.v3 12 + rol64 v.v4 18) % 2 ^ 64
      let h := mergeRound h v.v1
      let h := mergeRound h v.v2
      let h := mergeRound h v.v3
      let h := mergeRound h v.v4
      (h, rest)
    else (prime64_5, b)
  let h := (h + n) % 2 ^ 64
  let (h, rest) := tail8 rest.length rest h
  let (h, rest) := tail4 rest h
  avalanche (tail1 rest h)

/-! ## Files, handles and the log -/

/-- The regular files of the file system, by path. -/
structure World where
  files : String → Option (List Nat)

/-- The file system with the content of one file replaced (or the file created). -/
def World.put (w : World) (name : String) (c : List Nat) : World :=
  { files := fun n => if n = name then some c else w.files n }

/-- An `*os.File`: the file it was opened on and whether `Close` was called on it. -/
structure File where
  name : String
  closed : Bool
  deriving DecidableEq, Repr

/-- The struct `PersistentLog`. -/
structure PersistentLog where
  file : File
  filename : String
  maxLogIndex : Nat
  deriving DecidableEq, Repr

/-- The errors built with `fmt.Errorf`. -/
inductive Error where
  | couldNotOpenLog
  | cannotReadFileSize
  | cannotReadFile
  | couldNotReadLog (cause : Error)
  | errorGettingFileInfo
  | cannotRemoveBytes
  | errorTruncatingFile
  deriving DecidableEq, Repr

/-- Which operating-system calls made by `NewPeristentLog` fail (`true` = fails):
the `os.OpenFile` of `NewPeristentLog`, and in `readLogFromFile` the `os.OpenFile`,
`file.Stat`, `file.Read` and `os.Truncate`. -/
structure OpenCalls where
  openFile : Bool
  reopen : Bool
  stat : Bool
  read : Bool
  truncate : Bool
  deriving DecidableEq, Repr

/-- Every call succeeds. -/
def OpenCalls.allSucceed : OpenCalls :=
  { openFile := false, reopen := false, stat := false, read := false, truncate := false }

/-- Which calls of `StoreValue` fail for a reason of the operating system
(`true` = fails): `p.file.Write` and `p.file.Sync`. -/
structure StoreCalls where
  write : Bool
  sync : Bool
  deriving DecidableEq, Repr

/-- Both calls succeed (on an open handle). -/
def StoreCalls.allSucceed : StoreCalls := { write := false, sync := false }

/-- The content of a file after `os.Truncate(name, size)`: cut, or padded with zero
bytes, to exactly `size` bytes. -/
def truncateTo (c : List Nat) (size : Nat) : List Nat :=
  c.take size ++ List.replicate (size - c.length) 0

/-- `os.Truncate(name, size)`; `none` is a returned error (no such file, or the call
fails), which leaves the file system as it was. -/
def osTruncate (w : World) (fails : Bool) (name : String) (size : Nat) : Option World :=
  if fails then none
  else
    match w.files name with
    | none => none
    | some c => some (w.put name (truncateTo c size))

/-- `f.Write(b)` on a handle opened with `O_APPEND`; `none` is a returned error (the
handle is closed, or the call fails), which writes nothing. -/
def fileWrite (w : World) (fails : Bool) (f : File) (b : List Nat) : Option World :=
  if f.closed ∨ fails then none
  else
    match w.files f.name with
    | none => none
    | some c => some (w.put f.name (c ++ b))

/-- The constant `maxRW` of Go's `internal/poll`: one `Read` call on an `os.File`
transfers at most 2^30 bytes. -/
def maxRW : Nat := 2 ^ 30

/-- The buffer `rawFileBytes` after `make([]byte, filesize)` and the single
`file.Read(rawFileBytes)`, whose byte count the code drops: the first `maxRW` bytes of
the file, and zero bytes in the rest of the buffer. -/
def readBuffer (content : List Nat) : List Nat :=
  content.take maxRW ++ List.replicate (content.length - maxRW) 0

/-- `readLogFromFile`: returns the file system and the handle afterwards, and the
returned `error` (`none` is `nil`).  `content` is the file, `content.length` the
`filesize` of `file.Stat`; a `Read` into a buffer of length zero returns no error. -/
def readLogFromFile (xx : Sum64) (io : OpenCalls) (w : World) (p : PersistentLog) :
    Except Abort (World × PersistentLog × Option Error) :=
  match (if io.reopen then none else w.files p.filename) with
  | none => Except.ok (w, p, none)
  | some content =>
    if io.stat then Except.ok (w, p, some Error.cannotReadFileSize)
    else if io.read = true ∧ content ≠ [] then Except.ok (w, p, some Error.cannotReadFile)
    else
      match scanFile xx (readBuffer content) p.maxLogIndex with
      | Except.error a => Except.error a
      | Except.ok s =>
        let p := { p with maxLogIndex := s.maxLogIndex }
        if s.lastValidPos < content.length then
          match osTruncate w io.truncate "log.dat" s.lastValidPos with
          | none => Except.ok (w, p, none)
          | some w' => Except.ok (w', p, none)
        else Except.ok (w, p, none)

/-- `NewPeristentLog(filename)`: the file system afterwards and the returned pair,
`Except.ok plog` for `(&plog, nil)` and `Except.error e` for `(nil, e)`. -/
def NewPeristentLog (xx : Sum64) (io : OpenCalls) (w : World) (filename : String) :
    Except Abort (World × Except Error PersistentLog) :=
  if io.openFile then Except.ok (w, Except.error Error.couldNotOpenLog)
  else
    let w1 :=
      match w.files filename with
      | none => w.put filename []
      | some _ => w
    let plog : PersistentLog :=
      { file := { name := filename, closed := false }, filename := filename, maxLogIndex := 0 }
    match readLogFromFile xx io w1 plog with
    | Except.error a => Except.error a
    | Except.ok (w2, _, some e) => Except.ok (w2, Except.error (Error.couldNotReadLog e))
    | Except.ok (w2, p, none) => Except.ok (w2, Except.ok p)

/-- `StoreValue(value)`: the file system and the handle afterwards.  The results of
`Write` and `Sync` are dropped by the code. -/
def StoreValue (xx : Sum64) (io : StoreCalls) (w : World) (p : PersistentLog)
    (value : List Nat) : World × PersistentLog :=
  let dataLen := value.length
  let dataLenbuf := putUint32 (dataLen % 2 ^ 32)
  let checksum := getChecksum xx dataLenbuf value
  let msgToWrite := checksum ++ dataLenbuf ++ value
  let w' :=
    match fileWrite w io.write p.file msgToWrite with
    | none => w
    | some w' => w'
  (w', { p with maxLogIndex := p.maxLogIndex + 1 })

/-- `MaxLogIndex()`. -/
def MaxLogIndex (p : PersistentLog) : Nat := p.maxLogIndex

/-- `Close()`; the handle of a log made by `NewPeristentLog` is never nil. -/
def Close (p : PersistentLog) : PersistentLog :=
  { p with file := { p.file with closed := true } }

/-- `storeCorruptedValue(value, bytesToRemove)`; all its calls succeed when the file
exists. -/
def storeCorruptedValue (xx : Sum64) (w : World) (p : PersistentLog) (value : List Nat)
    (bytesToRemove : Int) : World × PersistentLog × Option Error :=
  let (w1, p1) := StoreValue xx StoreCalls.allSucceed w p value
  match w1.files p1.file.name with
  | none => (w1, p1, some Error.errorGettingFileInfo)
  | some c =>
    let currentSize : Int := c.length
    let newSize := currentSize - bytesToRemove
    if newSize < 0 then (w1, p1, some Error.cannotRemoveBytes)
    else
      match osTruncate w1 false p1.file.name newSize.toNat with
      | none => (w1, p1, some Error.errorTruncatingFile)
      | some w2 => (w2, p1, none)

/-! ## What the scan computes -/

/-- The count and the last valid boundary the recovery scan of `raw` ends with. -/
def recoveryScan (xx : Sum64) (raw : List Nat) : Except Abort (Nat × Nat) :=
  (scanFile xx raw 0).map fun s => (s.maxLogIndex, s.lastValidPos)

/-- The count and the last valid boundary of the recovery scan of a file holding
`content`: the scan runs on the buffer that the single `Read` filled. -/
def fileScan (xx : Sum64) (content : List Nat) : Except Abort (Nat × Nat) :=
  recoveryScan xx (readBuffer content)

/-- The frame `StoreValue` builds in `msgToWrite`. -/
def frame (xx : Sum64) (value : List Nat) : List Nat :=
  getChecksum xx (putUint32 (value.length % 2 ^ 32)) value
    ++ putUint32 (value.length % 2 ^ 32) ++ value

/-- The bytes written by storing the values in order. -/
def frames (xx : Sum64) : List (List Nat) → List Nat
  | [] => []
  | v :: vs => frame xx v ++ frames xx vs

/-- Decoding one frame at the head of the remaining bytes `t`: the size of the frame
when it is complete and its checksum matches. -/
def decode (xx : Sum64) (t : List Nat) : Option Nat :=
  if 12 ≤ t.length then
    if 12 + uint32 ((t.drop 8).take 4) ≤ t.length then
      if getChecksum xx ((t.drop 8).take 4) ((t.drop 12).take (uint32 ((t.drop 8).take 4)))
          = t.take 8 then
        some (12 + uint32 ((t.drop 8).take 4))
      else none
    else none
  else none

/-- Big-step reading of the scan on the remaining bytes: `Parses xx t k c` says that
`k` frames decode in sequence from the head of `t`, covering `c` bytes, and that the
decode after them fails. -/
inductive Parses (xx : Sum64) : List Nat → Nat → Nat → Prop where
  | stop (t : List Nat) (h : decode xx t = none) : Parses xx t 0 0
  | step (t : List Nat) (n k c : Nat) (h : decode xx t = some n)
      (rest : Parses xx (t.drop n) k c) : Parses xx t (k + 1) (n + c)

/-- The loop of `TestStoreValue`: `StoreValue` on each value in order, every write
and sync succeeding. -/
def storeAll (xx : Sum64) : World → PersistentLog → List (List Nat) → World × PersistentLog
  | w, p, [] => (w, p)
  | w, p, v :: vs =>
    storeAll xx (StoreValue xx StoreCalls.allSucceed w p v).1
      (StoreValue xx StoreCalls.allSucceed w p v).2 vs

/-- The file system left by `NewPeristentLog` on a file with content `raw` whose scan
ends at the boundary `c`, when every call but possibly `os.Truncate` succeeds. -/
def afterOpen (w : World) (truncateFails : Bool) (raw : List Nat) (c : Nat) : World :=
  if c < raw.length then
    match osTruncate w truncateFails "log.dat" c with
    | none => w
    | some w' => w'
  else w

/-- The bytes of an ASCII string literal, as Go's `[]byte(value)`. -/
def bytesOf (s : String) : List Nat := s.toList.map Char.toNat

/-- The table `tests` of `persistlog_test.go`. -/
def tests : List (List Nat) :=
  [bytesOf "this is a test", bytesOf "this is a ", bytesOf "this is",
   bytesOf "123456789123", bytesOf "123456789", bytesOf "         "]

/-- The file system after `os.CreateTemp`: one empty file, at the path `temp`. -/
def tempWorld (temp : String) : World :=
  { files := fun n => if n = temp then some [] else none }

/-- The loop of `TestCorruption`: the entry number `corruptIndex` goes through
`storeCorruptedValue(value, 3)`, the others through `StoreValue`. -/
def corruptLoop (xx : Sum64) (corruptIndex : Nat) :
    Nat → List (List Nat) → World → PersistentLog → World × PersistentLog
  | _, [], w, p => (w, p)
  | index, v :: vs, w, p =>
    if index + 1 = corruptIndex then
      corruptLoop xx corruptIndex (index + 1) vs (storeCorruptedValue xx w p v 3).1
        (storeCorruptedValue xx w p v 3).2.1
    else
      corruptLoop xx corruptIndex (index + 1) vs (StoreValue xx StoreCalls.allSucceed w p v).1
        (StoreValue xx StoreCalls.allSucceed w p v).2

/-- `TestCorruption`: the `actualIndex` it reads from the reopened log (`none` when an
open returned an error). -/
def TestCorruption (xx : Sum64) (w : World) (temp : String) : Except Abort (Option Nat) :=
  match NewPeristentLog xx OpenCalls.allSucceed w temp with
  | Except.error a => Except.error a
  | Except.ok (_, Except.error _) => Except.ok none
  | Except.ok (w0, Except.ok plog) =>
    match NewPeristentLog xx OpenCalls.allSucceed (corruptLoop xx 3 0 tests w0 plog).1 temp with
    | Except.error a => Except.error a
    | Except.ok (_, Except.error _) => Except.ok none
    | Except.ok (_, Except.ok plog2) => Except.ok (some (MaxLogIndex plog2))

/-- A file system with one file, `data.log`, holding three bytes that are no frame. -/
def garbageWorld : World :=
  { files := fun n => if n = "data.log" then some [1, 2, 3] else none }

/-- A 12-byte payload chosen so that XXH64 of its frame's length bytes and payload
equals XXH64 of the length bytes `0 0 0 4` followed by the first four payload bytes. -/
def collidingPayload : List Nat := [100, 97, 116, 97, 19, 37, 188, 175, 247, 201, 92, 26]

/-- A file system with one file, `a.log`, holding `c`. -/
def oneFileWorld (c : List Nat) : World :=
  { files := fun n => if n = "a.log" then some c else none }

/-- A handle as `NewPeristentLog("a.log")` returns it on an empty file. -/
def freshLog : PersistentLog :=
  { file := { name := "a.log", closed := false }, filename := "a.log", maxLogIndex := 0 }

/-- A payload of `n` zero bytes. -/
def zeroPayload (n : Nat) : List Nat := List.replicate n 0

/-- Only `os.Truncate` fails. -/
def OpenCalls.truncateFails : OpenCalls :=
  { openFile := false, reopen := false, stat := false, read := false, truncate := true }

/-- The bytes of a sequence of records, each given by its four length bytes and its
payload: checksum of (length bytes ++ payload), then the length bytes, then the
payload. -/
def encodeRecords (xx : Sum64) : List (List Nat × List Nat) → List Nat
  | [] => []
  | r :: rs => getChecksum xx r.1 r.2 ++ r.1 ++ r.2 ++ encodeRecords xx rs

/-- A file system with two files: `data.log` holds three bytes that are no frame and
`log.dat` holds `c`. -/
def twoFileWorld (c : List Nat) : World :=
  { files := fun n =>
      if n = "data.log" then some [1, 2, 3] else if n = "log.dat" then some c else none }

/-! ## Theorems -/

theorem putUint32_length (v : Nat) : (putUint32 v).length = 4 := rfl

theorem uint32_putUint32 (v : Nat) (h : v < 2 ^ 32) : uint32 (putUint32 v) = v := by
  simp only [putUint32, uint32]
  omega

theorem sumBytes_length (d : Nat) : (sumBytes d).length = 8 := rfl

theorem getChecksum_length (xx : Sum64) (a b : List Nat) : (getChecksum xx a b).length = 8 := rfl

theorem frame_length (xx : Sum64) (v : List Nat) : (frame xx v).length = 12 + v.length := by
  simp [frame, getChecksum_length, putUint32_length]
  omega

theorem slice_eq (b : List Nat) (lo n : Nat) (h : lo + n ≤ b.length) :
    slice b lo (lo + n) = some ((b.drop lo).take n) := by
  unfold slice
  rw [if_pos ⟨Nat.le_add_right lo n, h⟩]
  simp

theorem decode_bounds (xx : Sum64) (t : List Nat) (n : Nat) (h : decode xx t = some n) :
    12 ≤ n ∧ n ≤ t.length := by
  unfold decode at h
  split_ifs at h with h1 h2 h3
  simp only [Option.some.injEq] at h
  omega

theorem decode_some_shape (xx : Sum64) (t : List Nat) (n : Nat)
    (h : decode xx t = some n) :
    n = 12 + uint32 ((t.drop 8).take 4) ∧
    ((t.drop 8).take 4).length = 4 ∧
    ((t.drop 12).take (uint32 ((t.drop 8).take 4))).length = uint32 ((t.drop 8).take 4) ∧
    t.take n = getChecksum xx ((t.drop 8).take 4)
        ((t.drop 12).take (uint32 ((t.drop 8).take 4)))
      ++ (t.drop 8).take 4 ++ (t.drop 12).take (uint32 ((t.drop 8).take 4)) := by
  unfold decode at h
  split_ifs at h with h1 h2 h3
  simp only [Option.some.injEq] at h
  generalize hL : uint32 ((t.drop 8).take 4) = L at h h2 h3 ⊢
  subst h
  refine ⟨rfl, ?_, ?_, ?_⟩
  · rw [List.length_take, List.length_drop]
    omega
  · rw [List.length_take, List.length_drop]
    omega
  · have e : 12 + L = 8 + (4 + L) := by omega
    rw [h3, e, List.take_add, List.take_add, List.drop_drop, List.append_assoc]

theorem scanBody_of_decode_some (xx : Sum64) (raw : List Nat) (s : ScanState) (n : Nat)
    (h : decode xx (raw.drop s.pos) = some n) :
    scanBody xx raw s = Step.next
      { pos := s.pos + n, lastValidPos := s.pos + n, maxLogIndex := s.maxLogIndex + 1 } := by
  unfold decode at h
  simp only [List.length_drop, List.drop_drop] at h
  split_ifs at h with h1 h2 h3
  simp only [Option.some.injEq] at h
  subst h
  unfold scanBody
  simp only [HASHLEN, INTLEN]
  have e1 : slice raw s.pos (s.pos + 8) = some ((raw.drop s.pos).take 8) :=
    slice_eq raw s.pos 8 (by omega)
  have e2 : slice raw (s.pos + 8) (s.pos + 8 + 4) = some ((raw.drop (s.pos + 8)).take 4) :=
    slice_eq raw (s.pos + 8) 4 (by omega)
  rw [if_pos (by omega), e1]
  simp only
  rw [if_pos (by omega), e2]
  simp only
  have e12 : s.pos + 8 + 4 = s.pos + 12 := by omega
  rw [e12]
  generalize hL : uint32 ((raw.drop (s.pos + 8)).take 4) = L at h2 h3 ⊢
  rw [if_pos (by omega), slice_eq raw (s.pos + 12) L (by omega)]
  simp only [h3, ne_eq, not_true_eq_false, if_false]
  rw [Nat.add_assoc]

theorem scanBody_of_decode_none (xx : Sum64) (raw : List Nat) (s : ScanState)
    (h : decode xx (raw.drop s.pos) = none) :
    ∃ q, scanBody xx raw s = Step.brk
      { pos := q, lastValidPos := s.lastValidPos, maxLogIndex := s.maxLogIndex } := by
  unfold decode at h
  simp only [List.length_drop, List.drop_drop] at h
  unfold scanBody
  simp only [HASHLEN, INTLEN]
  by_cases c1 : s.pos + 8 ≤ raw.length
  · rw [if_pos c1, slice_eq raw s.pos 8 c1]
    simp only
    by_cases c2 : s.pos + 8 + 4 ≤ raw.length
    · rw [if_pos c2, slice_eq raw (s.pos + 8) 4 c2]
      simp only
      have e12 : s.pos + 8 + 4 = s.pos + 12 := by omega
      rw [e12]
      rw [if_pos (by omega)] at h
      generalize hL : uint32 ((raw.drop (s.pos + 8)).take 4) = L at h ⊢
      by_cases c3 : s.pos + 12 + L ≤ raw.length
      · rw [if_pos c3, slice_eq raw (s.pos + 12) L c3]
        simp only
        rw [if_pos (by omega)] at h
        by_cases c4 : getChecksum xx ((raw.drop (s.pos + 8)).take 4)
            ((raw.drop (s.pos + 12)).take L) = (raw.drop s.pos).take 8
        · rw [if_pos c4] at h
          exact absurd h (by simp)
        · rw [if_pos c4]
          exact ⟨_, rfl⟩
      · rw [if_neg c3]
        exact ⟨_, rfl⟩
    · rw [if_neg c2]
      exact ⟨_, rfl⟩
  · rw [if_neg c1]
    exact ⟨_, rfl⟩

theorem scanLoop_of_parses (xx : Sum64) (raw : List Nat) :
    ∀ (t : List Nat) (k c : Nat), Parses xx t k c →
    ∀ (s : ScanState) (fuel : Nat), raw.drop s.pos = t → s.lastValidPos = s.pos →
      k + 1 ≤ fuel →
      ∃ q, scanLoop xx raw fuel s = Except.ok
        { pos := q, lastValidPos := s.pos + c, maxLogIndex := s.maxLogIndex + k } := by
  intro t k c hp
  induction hp with
  | stop t h =>
    intro s fuel ht hl hf
    obtain ⟨f, rfl⟩ : ∃ f, fuel = f + 1 := ⟨fuel - 1, by omega⟩
    subst ht
    unfold scanLoop
    by_cases hlt : s.pos < raw.length
    · obtain ⟨q, hq⟩ := scanBody_of_decode_none xx raw s h
      rw [if_pos hlt, hq]
      exact ⟨q, by simp [hl]⟩
    · rw [if_neg hlt]
      exact ⟨s.pos, by cases s; simp_all⟩
  | step t n k c h rest ih =>
    intro s fuel ht hl hf
    obtain ⟨f, rfl⟩ : ∃ f, fuel = f + 1 := ⟨fuel - 1, by omega⟩
    subst ht
    have hb := decode_bounds xx _ n h
    rw [List.length_drop] at hb
    unfold scanLoop
    rw [if_pos (by omega), scanBody_of_decode_some xx raw s n h]
    simp only
    obtain ⟨q, hq⟩ := ih ⟨s.pos + n, s.pos + n, s.maxLogIndex + 1⟩ f (by simp [List.drop_drop, Nat.add_comm]) rfl (by omega)
    refine ⟨q, ?_⟩
    rw [hq]
    simp only [Nat.add_assoc, Nat.add_comm 1 k]

theorem parses_bounds (xx : Sum64) (t : List Nat) (k c : Nat) (h : Parses xx t k c) :
    12 * k ≤ c ∧ c ≤ t.length := by
  induction h with
  | stop t h => simp
  | step t n k c h rest ih =>
    have hb := decode_bounds xx t n h
    rw [List.length_drop] at ih
    omega

theorem parses_total (xx : Sum64) : ∀ (m : Nat) (t : List Nat), t.length ≤ m →
    ∃ k c, Parses xx t k c := by
  intro m
  induction m with
  | zero =>
    intro t ht
    refine ⟨0, 0, Parses.stop t ?_⟩
    unfold decode
    rw [if_neg (by omega)]
  | succ m ih =>
    intro t ht
    cases hd : decode xx t with
    | none => exact ⟨0, 0, Parses.stop t hd⟩
    | some n =>
      have hb := decode_bounds xx t n hd
      obtain ⟨k, c, hkc⟩ := ih (t.drop n) (by rw [List.length_drop]; omega)
      exact ⟨k + 1, n + c, Parses.step t n k c hd hkc⟩

theorem parses_unique (xx : Sum64) (t : List Nat) (k c : Nat) (h : Parses xx t k c) :
    ∀ k' c', Parses xx t k' c' → k' = k ∧ c' = c := by
  induction h with
  | stop t h =>
    intro k' c' h'
    cases h' with
    | stop _ _ => exact ⟨rfl, rfl⟩
    | step _ n k c hd rest => rw [h] at hd; exact absurd hd (by simp)
  | step t n k c h rest ih =>
    intro k' c' h'
    cases h' with
    | stop _ hd => rw [h] at hd; exact absurd hd (by simp)
    | step _ n' k'' c'' hd rest' =>
      rw [h] at hd
      simp only [Option.some.injEq] at hd
      subst hd
      obtain ⟨e1, e2⟩ := ih k'' c'' rest'
      omega

theorem scanFile_of_parses (xx : Sum64) (raw : List Nat) (k c count0 : Nat)
    (h : Parses xx raw k c) :
    ∃ q, scanFile xx raw count0 = Except.ok
      { pos := q, lastValidPos := c, maxLogIndex := count0 + k } := by
  have hb := parses_bounds xx raw k c h
  have hk : k ≤ raw.length / 12 := by
    rw [Nat.le_div_iff_mul_le (by norm_num)]
    omega
  obtain ⟨q, hq⟩ := scanLoop_of_parses xx raw raw k c h
    { pos := 0, lastValidPos := 0, maxLogIndex := count0 } (raw.length / 12 + 1)
    (by simp) rfl (by omega)
  refine ⟨q, ?_⟩
  unfold scanFile
  rw [hq]
  simp

theorem recoveryScan_of_parses (xx : Sum64) (raw : List Nat) (k c : Nat)
    (h : Parses xx raw k c) : recoveryScan xx raw = Except.ok (k, c) := by
  obtain ⟨q, hq⟩ := scanFile_of_parses xx raw k c 0 h
  unfold recoveryScan
  rw [hq]
  simp [Except.map]

theorem frame_split (xx : Sum64) (v rest : List Nat) :
    frame xx v ++ rest =
      getChecksum xx (putUint32 (v.length % 2 ^ 32)) v
        ++ (putUint32 (v.length % 2 ^ 32) ++ (v ++ rest)) := by
  simp [frame, List.append_assoc]

theorem take8_frame (xx : Sum64) (v rest : List Nat) :
    (frame xx v ++ rest).take 8 = getChecksum xx (putUint32 (v.length % 2 ^ 32)) v := by
  rw [frame_split]
  exact List.take_left' (getChecksum_length xx _ _)

theorem drop8_frame (xx : Sum64) (v rest : List Nat) :
    (frame xx v ++ rest).drop 8 = putUint32 (v.length % 2 ^ 32) ++ (v ++ rest) := by
  rw [frame_split]
  exact List.drop_left' (getChecksum_length xx _ _)

theorem drop12_frame (xx : Sum64) (v rest : List Nat) :
    (frame xx v ++ rest).drop 12 = v ++ rest := by
  have h : (frame xx v ++ rest).drop 12 = ((frame xx v ++ rest).drop 8).drop 4 := by
    rw [List.drop_drop]
  rw [h, drop8_frame]
  exact List.drop_left' (putUint32_length _)

theorem drop_frame (xx : Sum64) (v rest : List Nat) :
    (frame xx v ++ rest).drop (12 + v.length) = rest := by
  exact List.drop_left' (frame_length xx v)

theorem decode_frame (xx : Sum64) (v rest : List Nat) (hv : v.length < 2 ^ 32) :
    decode xx (frame xx v ++ rest) = some (12 + v.length) := by
  have hm : v.length % 2 ^ 32 = v.length := Nat.mod_eq_of_lt hv
  have hlen : (frame xx v ++ rest).length = 12 + v.length + rest.length := by
    rw [List.length_append, frame_length]
  have h4 : ((frame xx v ++ rest).drop 8).take 4 = putUint32 v.length := by
    rw [drop8_frame, hm]
    exact List.take_left' (putUint32_length _)
  unfold decode
  rw [h4, uint32_putUint32 v.length hv, drop12_frame, take8_frame, hm,
    List.take_left' rfl, if_pos (by omega), if_pos (by omega), if_pos rfl]

theorem frames_append (xx : Sum64) (vs ws : List (List Nat)) :
    frames xx (vs ++ ws) = frames xx vs ++ frames xx ws := by
  induction vs with
  | nil => rfl
  | cons v vs ih => simp [frames, ih, List.append_assoc]

theorem frames_length_ge (xx : Sum64) (vs : List (List Nat)) :
    12 * vs.length ≤ (frames xx vs).length := by
  induction vs with
  | nil => simp [frames]
  | cons v vs ih =>
    simp only [frames, List.length_append, frame_length, List.length_cons]
    omega

theorem parses_frames (xx : Sum64) (vs : List (List Nat)) (tail : List Nat) (k c : Nat)
    (hlen : ∀ v ∈ vs, v.length < 2 ^ 32) (h : Parses xx tail k c) :
    Parses xx (frames xx vs ++ tail) (vs.length + k) ((frames xx vs).length + c) := by
  induction vs with
  | nil => simpa [frames] using h
  | cons v vs ih =>
    have hv : v.length < 2 ^ 32 := hlen v (List.mem_cons_self v vs)
    have ih' := ih (fun u hu => hlen u (List.mem_cons_of_mem v hu))
    have hd : decode xx (frame xx v ++ (frames xx vs ++ tail)) = some (12 + v.length) :=
      decode_frame xx v _ hv
    have hs := Parses.step (frame xx v ++ (frames xx vs ++ tail)) (12 + v.length)
      (vs.length + k) ((frames xx vs).length + c) hd (by rw [drop_frame]; exact ih')
    have e1 : frames xx (v :: vs) ++ tail = frame xx v ++ (frames xx vs ++ tail) := by
      simp [frames, List.append_assoc]
    have e2 : (v :: vs).length + k = vs.length + k + 1 := by simp; omega
    have e3 : (frames xx (v :: vs)).length + c
        = 12 + v.length + ((frames xx vs).length + c) := by
      simp only [frames, List.length_append, frame_length]
      omega
    rw [e1, e2, e3]
    exact hs

theorem recoveryScan_frames (xx : Sum64) (vs : List (List Nat)) (tail : List Nat)
    (hlen : ∀ v ∈ vs, v.length < 2 ^ 32) (h : decode xx tail = none) :
    recoveryScan xx (frames xx vs ++ tail) = Except.ok (vs.length, (frames xx vs).length) := by
  have hp := parses_frames xx vs tail 0 0 hlen (Parses.stop tail h)
  simpa using recoveryScan_of_parses xx _ _ _ hp

theorem put_files_same (w : World) (name : String) (c : List Nat) :
    (w.put name c).files name = some c := by
  simp [World.put]

theorem put_files_other (w : World) (name other : String) (c : List Nat) (h : other ≠ name) :
    (w.put name c).files other = w.files other := by
  simp [World.put, h]

theorem StoreValue_appends (xx : Sum64) (w : World) (p : PersistentLog) (c v : List Nat)
    (hopen : p.file.closed = false) (hfile : w.files p.file.name = some c) :
    StoreValue xx StoreCalls.allSucceed w p v
      = (w.put p.file.name (c ++ frame xx v), { p with maxLogIndex := p.maxLogIndex + 1 }) := by
  simp [StoreValue, fileWrite, hopen, hfile, StoreCalls.allSucceed, frame]

theorem storeAll_spec (xx : Sum64) (vs : List (List Nat)) :
    ∀ (w : World) (p : PersistentLog) (c : List Nat), p.file.closed = false →
      w.files p.file.name = some c →
      (storeAll xx w p vs).1.files p.file.name = some (c ++ frames xx vs) ∧
      (∀ other, other ≠ p.file.name → (storeAll xx w p vs).1.files other = w.files other) ∧
      (storeAll xx w p vs).2 = { p with maxLogIndex := p.maxLogIndex + vs.length } := by
  induction vs with
  | nil =>
    intro w p c _ hfile
    simp [storeAll, frames, hfile]
  | cons v vs ih =>
    intro w p c hopen hfile
    simp only [storeAll]
    rw [StoreValue_appends xx w p c v hopen hfile]
    obtain ⟨h1, h2, h3⟩ := ih (w.put p.file.name (c ++ frame xx v))
      { p with maxLogIndex := p.maxLogIndex + 1 } (c ++ frame xx v) hopen
      (put_files_same w p.file.name _)
    refine ⟨?_, ?_, ?_⟩
    · simpa [frames, List.append_assoc] using h1
    · intro other ho
      rw [h2 other ho]
      exact put_files_other w p.file.name other _ ho
    · rw [h3]
      simp only [List.length_cons, PersistentLog.mk.injEq, true_and]
      omega

theorem readBuffer_of_le (content : List Nat) (h : content.length ≤ maxRW) :
    readBuffer content = content := by
  have h0 : content.length - maxRW = 0 := by omega
  simp only [readBuffer, h0, List.replicate_zero, List.append_nil]
  exact List.take_of_length_le h

theorem readBuffer_nil : readBuffer [] = [] :=
  readBuffer_of_le [] (Nat.zero_le _)

theorem readBuffer_take (raw : List Nat) (c : Nat) (hc : c ≤ raw.length) :
    readBuffer (raw.take c) = (readBuffer raw).take c := by
  have hlen : (raw.take c).length = c := by
    rw [List.length_take]
    omega
  by_cases hM : c ≤ maxRW
  · rw [readBuffer_of_le _ (by omega)]
    unfold readBuffer
    have e0 : min c maxRW = c := by omega
    rw [List.take_append_of_le_length (by rw [List.length_take]; omega), List.take_take, e0]
  · have e1 : (raw.take c).take maxRW = raw.take maxRW := by
      have e0 : min maxRW c = maxRW := by omega
      rw [List.take_take, e0]
    have e2 : (raw.take maxRW).length = maxRW := by
      rw [List.length_take]
      omega
    have e3 : c = (raw.take maxRW).length + (c - maxRW) := by omega
    unfold readBuffer
    rw [e1, hlen]
    have e4 : min (c - maxRW) (raw.length - maxRW) = c - maxRW := by omega
    conv_rhs => rw [e3, List.take_append, List.take_replicate, e4]

theorem fileScan_of_le (xx : Sum64) (content : List Nat) (h : content.length ≤ maxRW) :
    fileScan xx content = recoveryScan xx content := by
  unfold fileScan
  rw [readBuffer_of_le content h]

theorem readLogFromFile_of_parses (xx : Sum64) (io : OpenCalls) (w : World)
    (p : PersistentLog) (raw : List Nat) (k c : Nat)
    (h1 : io.reopen = false) (h2 : io.stat = false) (h3 : io.read = false ∨ raw = [])
    (hfile : w.files p.filename = some raw) (hp : Parses xx (readBuffer raw) k c) :
    readLogFromFile xx io w p = Except.ok
      (afterOpen w io.truncate raw c, { p with maxLogIndex := p.maxLogIndex + k }, none) := by
  obtain ⟨q, hq⟩ := scanFile_of_parses xx (readBuffer raw) k c p.maxLogIndex hp
  have h3' : ¬ (io.read = true ∧ raw ≠ []) := by
    rintro ⟨hr, hne⟩
    rcases h3 with h | h
    · rw [h] at hr
      exact absurd hr (by simp)
    · exact hne h
  unfold readLogFromFile afterOpen
  simp only [h1, h2, hfile, hq, Bool.false_eq_true, if_false, if_neg h3']
  by_cases hc : c < raw.length
  · simp only [hc, if_true]
    cases osTruncate w io.truncate "log.dat" c <;> rfl
  · simp only [hc, if_false]

theorem NewPeristentLog_of_parses (xx : Sum64) (io : OpenCalls) (w : World)
    (path : String) (raw : List Nat) (k c : Nat)
    (h0 : io.openFile = false) (h1 : io.reopen = false) (h2 : io.stat = false)
    (h3 : io.read = false ∨ raw = [])
    (hfile : w.files path = some raw) (hp : Parses xx (readBuffer raw) k c) :
    NewPeristentLog xx io w path = Except.ok
      (afterOpen w io.truncate raw c,
        Except.ok { file := { name := path, closed := false }, filename := path,
                    maxLogIndex := k }) := by
  unfold NewPeristentLog
  simp only [h0, Bool.false_eq_true, if_false, hfile]
  rw [readLogFromFile_of_parses xx io w _ raw k c h1 h2 h3 hfile hp]
  simp

theorem parses_nil (xx : Sum64) : Parses xx [] 0 0 :=
  Parses.stop [] (by simp [decode])

theorem afterOpen_full (w : World) (b : Bool) (raw : List Nat) :
    afterOpen w b raw raw.length = w := by
  simp [afterOpen]

theorem lt_of_le_pred (vs : List (List Nat)) (h : ∀ v ∈ vs, v.length ≤ 2 ^ 32 - 1) :
    ∀ v ∈ vs, v.length < 2 ^ 32 := by
  intro v hv
  have := h v hv
  omega

theorem NewPeristentLog_create (xx : Sum64) (io : OpenCalls) (w : World) (path : String)
    (h0 : io.openFile = false) (h1 : io.reopen = false) (h2 : io.stat = false)
    (hfile : w.files path = none) :
    NewPeristentLog xx io w path = Except.ok
      (w.put path [],
        Except.ok { file := { name := path, closed := false }, filename := path,
                    maxLogIndex := 0 }) := by
  have hp : Parses xx (readBuffer []) 0 0 := by
    rw [readBuffer_nil]
    exact parses_nil xx
  unfold NewPeristentLog
  simp only [h0, Bool.false_eq_true, if_false, hfile]
  rw [readLogFromFile_of_parses xx io (w.put path []) _ [] 0 0 h1 h2 (Or.inr rfl)
    (put_files_same w path []) hp]
  simp [afterOpen]

theorem parses_of_recoveryScan (xx : Sum64) (raw : List Nat) (k c : Nat)
    (h : recoveryScan xx raw = Except.ok (k, c)) : Parses xx raw k c := by
  obtain ⟨k', c', hp⟩ := parses_total xx raw.length raw (Nat.le_refl _)
  have h' := recoveryScan_of_parses xx raw k' c' hp
  rw [h] at h'
  simp only [Except.ok.injEq, Prod.mk.injEq] at h'
  obtain ⟨rfl, rfl⟩ := h'
  exact hp

theorem NewPeristentLog_valid (xx : Sum64) (w : World) (path : String) (raw : List Nat)
    (k : Nat) (hfile : w.files path = some raw)
    (hscan : fileScan xx raw = Except.ok (k, raw.length)) :
    NewPeristentLog xx OpenCalls.allSucceed w path = Except.ok
      (w, Except.ok { file := { name := path, closed := false }, filename := path,
                      maxLogIndex := k }) := by
  have hp := parses_of_recoveryScan xx (readBuffer raw) k raw.length hscan
  have := NewPeristentLog_of_parses xx OpenCalls.allSucceed w path raw k raw.length
    rfl rfl rfl (Or.inl rfl) hfile hp
  rw [afterOpen_full] at this
  exact this

theorem decode_none_of_fails (xx : Sum64) (tail : List Nat)
    (hfail : tail.length < 12 ∨ tail.length < 12 + uint32 ((tail.drop 8).take 4) ∨
      getChecksum xx ((tail.drop 8).take 4)
        ((tail.drop 12).take (uint32 ((tail.drop 8).take 4))) ≠ tail.take 8) :
    decode xx tail = none := by
  unfold decode
  split_ifs with h1 h2 h3
  · rcases hfail with h | h | h
    · omega
    · omega
    · exact absurd h3 h
  · rfl
  · rfl
  · rfl

theorem fileScan_frames (xx : Sum64) (vs : List (List Nat)) (tail : List Nat)
    (hlen : ∀ v ∈ vs, v.length < 2 ^ 32) (hsize : (frames xx vs ++ tail).length ≤ maxRW)
    (h : decode xx tail = none) :
    fileScan xx (frames xx vs ++ tail) = Except.ok (vs.length, (frames xx vs).length) := by
  rw [fileScan_of_le xx _ hsize]
  exact recoveryScan_frames xx vs tail hlen h

/-- Within one `Read` (frames of at most 2^30 bytes in all) the log reopens with the
count of the stores: for payloads of at most 2^32-1 bytes stored in order on a log
opened on an absent or empty file, `MaxLogIndex` is `i` after the i-th store, the file
holds exactly the frames, and a fresh `NewPeristentLog` reports `MaxLogIndex = N` and
changes no file. -/
theorem store_then_reopen_within_one_read (xx : Sum64) (w : World) (path : String)
    (vs : List (List Nat))
    (hfile : w.files path = none ∨ w.files path = some [])
    (hlen : ∀ v ∈ vs, v.length ≤ 2 ^ 32 - 1)
    (hsize : (frames xx vs).length ≤ maxRW) :
    ∃ w0 p0, NewPeristentLog xx OpenCalls.allSucceed w path = Except.ok (w0, Except.ok p0) ∧
      (∀ i, i ≤ vs.length → MaxLogIndex (storeAll xx w0 p0 (vs.take i)).2 = i) ∧
      (storeAll xx w0 p0 vs).1.files path = some (frames xx vs) ∧
      fileScan xx (frames xx vs) = Except.ok (vs.length, (frames xx vs).length) ∧
      ∃ p1, NewPeristentLog xx OpenCalls.allSucceed (storeAll xx w0 p0 vs).1 path
          = Except.ok ((storeAll xx w0 p0 vs).1, Except.ok p1) ∧
        MaxLogIndex p1 = vs.length := by
  have hlt := lt_of_le_pred vs hlen
  have hscan : fileScan xx (frames xx vs)
      = Except.ok (vs.length, (frames xx vs).length) := by
    have := fileScan_frames xx vs [] hlt (by simpa using hsize) (by simp [decode])
    simpa using this
  have hnil : fileScan xx [] = Except.ok (0, ([] : List Nat).length) := by
    rw [fileScan_of_le xx [] (Nat.zero_le _)]
    simpa using recoveryScan_of_parses xx [] 0 0 (parses_nil xx)
  have key : ∀ w0 : World, w0.files path = some [] →
      (∀ i, i ≤ vs.length → MaxLogIndex (storeAll xx w0
        { file := { name := path, closed := false }, filename := path, maxLogIndex := 0 }
        (vs.take i)).2 = i) ∧
      (storeAll xx w0
        { file := { name := path, closed := false }, filename := path, maxLogIndex := 0 }
        vs).1.files path = some (frames xx vs) := by
    intro w0 h0
    constructor
    · intro i hi
      obtain ⟨_, _, h3⟩ := storeAll_spec xx (vs.take i) w0
        { file := { name := path, closed := false }, filename := path, maxLogIndex := 0 }
        [] rfl h0
      rw [h3]
      simp [MaxLogIndex, hi]
    · obtain ⟨h1, _, _⟩ := storeAll_spec xx vs w0
        { file := { name := path, closed := false }, filename := path, maxLogIndex := 0 }
        [] rfl h0
      simpa using h1
  rcases hfile with hnone | hempty
  · refine ⟨_, _, NewPeristentLog_create xx OpenCalls.allSucceed w path rfl rfl rfl hnone, ?_⟩
    obtain ⟨k1, k2⟩ := key (w.put path []) (put_files_same w path [])
    exact ⟨k1, k2, hscan, _, NewPeristentLog_valid xx _ path _ _ k2 hscan, rfl⟩
  · have hopen := NewPeristentLog_valid xx w path [] 0 hempty hnil
    refine ⟨_, _, hopen, ?_⟩
    obtain ⟨k1, k2⟩ := key w hempty
    exact ⟨k1, k2, hscan, _, NewPeristentLog_valid xx _ path _ _ k2 hscan, rfl⟩

theorem zeroPayload_length (n : Nat) : (zeroPayload n).length = n :=
  List.length_replicate n 0

theorem readBuffer_append (a b : List Nat) (ha : a.length = maxRW) :
    readBuffer (a ++ b) = a ++ zeroPayload b.length := by
  unfold readBuffer zeroPayload
  rw [List.take_left' ha, List.length_append, ha, Nat.add_sub_cancel_left]

theorem maxRW_ge : 64 ≤ maxRW := by
  unfold maxRW
  norm_num

theorem maxRW_le : maxRW ≤ 2 ^ 32 - 1 := by
  unfold maxRW
  norm_num

set_option maxRecDepth 100000 in
theorem decode_zeros13 : decode xxhash64 (zeroPayload 13) = none := by
  rfl

set_option maxRecDepth 100000 in
theorem checksum_of_zero_header :
    getChecksum xxhash64 (List.replicate 4 0) (List.replicate 0 0) ≠ List.replicate 8 0 := by
  decide

theorem decode_zeros (m : Nat) : decode xxhash64 (zeroPayload m) = none := by
  unfold decode zeroPayload
  simp only [List.length_replicate, List.drop_replicate, List.take_replicate]
  by_cases h12 : 12 ≤ m
  · have e4 : min 4 (m - 8) = 4 := by omega
    have e8 : min 8 m = 8 := by omega
    have eu : uint32 (List.replicate 4 0) = 0 := rfl
    have e0 : min 0 (m - 12) = 0 := by omega
    rw [if_pos h12, e4, eu, e0, e8, if_pos (by omega), if_neg checksum_of_zero_header]
  · rw [if_neg h12]

/-- A file whose first frame is the one `StoreValue` writes for 2^30 - 12 zero bytes,
2^30 bytes long: whatever bytes follow it, the scan of the file reports count 1 and
the boundary 2^30, because the buffer holds zeros after the first 2^30 bytes. -/
theorem fileScan_past_one_read (t : List Nat) :
    fileScan xxhash64 (frame xxhash64 (zeroPayload (maxRW - 12)) ++ t)
      = Except.ok (1, maxRW) := by
  have hge := maxRW_ge
  have hle := maxRW_le
  have hv1 : (zeroPayload (maxRW - 12)).length < 2 ^ 32 := by
    rw [zeroPayload_length]
    omega
  have hf1 : (frame xxhash64 (zeroPayload (maxRW - 12))).length = maxRW := by
    rw [frame_length, zeroPayload_length]
    omega
  have h := parses_frames xxhash64 [zeroPayload (maxRW - 12)] (zeroPayload t.length) 0 0
    (by
      intro v hv
      rw [List.mem_singleton.mp hv]
      exact hv1)
    (Parses.stop _ (decode_zeros t.length))
  have e : frames xxhash64 [zeroPayload (maxRW - 12)]
      = frame xxhash64 (zeroPayload (maxRW - 12)) := by
    simp only [frames, List.append_nil]
  rw [e, hf1] at h
  unfold fileScan
  rw [readBuffer_append _ _ hf1]
  exact recoveryScan_of_parses xxhash64 _ _ _ h

theorem large_frames_split (vs : List (List Nat)) (t : List Nat) :
    frames xxhash64 (zeroPayload (maxRW - 12) :: vs) ++ t
      = frame xxhash64 (zeroPayload (maxRW - 12)) ++ (frames xxhash64 vs ++ t) := by
  simp only [frames, List.append_assoc]

theorem large_frames_length :
    (frames xxhash64 [zeroPayload (maxRW - 12), [97]]).length = maxRW + 13 := by
  have hge := maxRW_ge
  simp only [frames, List.append_nil, List.length_append, frame_length, zeroPayload_length,
    List.length_singleton]
  omega

theorem large_payloads_bounded :
    ∀ v ∈ [zeroPayload (maxRW - 12), [97]], v.length ≤ 2 ^ 32 - 1 := by
  have hle := maxRW_le
  intro v hv
  rcases List.mem_cons.mp hv with rfl | hv'
  · rw [zeroPayload_length]
    omega
  · rw [List.mem_singleton.mp hv']
    decide

/-- C1 at a failing input: on a new temporary file a payload of 2^30 - 12 zero bytes
and the one-byte payload `a` are stored, both of at most 2^32-1 bytes; `MaxLogIndex`
is 2 and the file holds the two frames, 2^30 + 13 bytes.  The fresh
`NewPeristentLog` reads only the first 2^30 bytes into its buffer, finds zeros where
the second frame is, and returns a handle with `MaxLogIndex = 1`. -/
theorem C1_reopen_undercounts_large_file :
    (∀ v ∈ [zeroPayload (maxRW - 12), [97]], v.length ≤ 2 ^ 32 - 1) ∧
    ∃ w0 p0, NewPeristentLog xxhash64 OpenCalls.allSucceed (tempWorld "/tmp/plog1") "/tmp/plog1"
        = Except.ok (w0, Except.ok p0) ∧
      MaxLogIndex (storeAll xxhash64 w0 p0 [zeroPayload (maxRW - 12), [97]]).2 = 2 ∧
      (storeAll xxhash64 w0 p0 [zeroPayload (maxRW - 12), [97]]).1.files "/tmp/plog1"
        = some (frames xxhash64 [zeroPayload (maxRW - 12), [97]]) ∧
      (frames xxhash64 [zeroPayload (maxRW - 12), [97]]).length = maxRW + 13 ∧
      ∃ w3 p3, NewPeristentLog xxhash64 OpenCalls.allSucceed
          (storeAll xxhash64 w0 p0 [zeroPayload (maxRW - 12), [97]]).1 "/tmp/plog1"
          = Except.ok (w3, Except.ok p3) ∧
        MaxLogIndex p3 = 1 := by
  have hge := maxRW_ge
  have hle := maxRW_le
  have hv1 : (zeroPayload (maxRW - 12)).length < 2 ^ 32 := by
    rw [zeroPayload_length]
    omega
  have hf1 : (frame xxhash64 (zeroPayload (maxRW - 12))).length = maxRW := by
    rw [frame_length, zeroPayload_length]
    omega
  have hfs : frames xxhash64 [zeroPayload (maxRW - 12), [97]]
      = frame xxhash64 (zeroPayload (maxRW - 12)) ++ frame xxhash64 [97] := by
    simp only [frames, List.append_nil]
  have hlen2 : (frame xxhash64 [97]).length = 13 := frame_length xxhash64 [97]
  have hbuf : readBuffer (frames xxhash64 [zeroPayload (maxRW - 12), [97]])
      = frames xxhash64 [zeroPayload (maxRW - 12)] ++ zeroPayload 13 := by
    rw [hfs, readBuffer_append _ _ hf1, hlen2]
    simp only [frames, List.append_nil]
  have hp : Parses xxhash64 (readBuffer (frames xxhash64 [zeroPayload (maxRW - 12), [97]]))
      1 maxRW := by
    have h := parses_frames xxhash64 [zeroPayload (maxRW - 12)] (zeroPayload 13) 0 0
      (by
        intro v hv
        rw [List.mem_singleton.mp hv]
        exact hv1)
      (Parses.stop _ decode_zeros13)
    have e : (frames xxhash64 [zeroPayload (maxRW - 12)]).length = maxRW := by
      simp only [frames, List.append_nil]
      exact hf1
    rw [e] at h
    rw [hbuf]
    exact h
  have h0 : (tempWorld "/tmp/plog1").files "/tmp/plog1" = some [] := by
    simp [tempWorld]
  have hnil : fileScan xxhash64 [] = Except.ok (0, ([] : List Nat).length) := by
    rw [fileScan_of_le xxhash64 [] (Nat.zero_le _)]
    simpa using recoveryScan_of_parses xxhash64 [] 0 0 (parses_nil xxhash64)
  obtain ⟨s1, _, s3⟩ := storeAll_spec xxhash64 [zeroPayload (maxRW - 12), [97]]
    (tempWorld "/tmp/plog1")
    { file := { name := "/tmp/plog1", closed := false }, filename := "/tmp/plog1",
      maxLogIndex := 0 } [] rfl h0
  rw [List.nil_append] at s1
  refine ⟨?_, _, _, NewPeristentLog_valid xxhash64 _ "/tmp/plog1" [] 0 h0 hnil, ?_, s1, ?_,
    _, _, NewPeristentLog_of_parses xxhash64 OpenCalls.allSucceed _ "/tmp/plog1" _ 1 maxRW
      rfl rfl rfl (Or.inl rfl) s1 hp, rfl⟩
  · intro v hv
    rcases List.mem_cons.mp hv with rfl | hv'
    · omega
    · rw [List.mem_singleton.mp hv']
      decide
  · rw [s3]
    rfl
  · rw [hfs, List.length_append, hf1, hlen2]

set_option maxRecDepth 100000 in
theorem testCorruption_run :
    TestCorruption xxhash64 (tempWorld "/tmp/plog2") "/tmp/plog2" = Except.ok (some 2) := by
  rfl

theorem parses_zero (xx : Sum64) (t : List Nat) (k c : Nat) (h : Parses xx t k c)
    (hk : k = 0) : c = 0 := by
  cases h with
  | stop _ _ => rfl
  | step _ n k' c' hd rest => omega

theorem parses_one (xx : Sum64) (t : List Nat) (k c : Nat) (h : Parses xx t k c)
    (hk : k = 1) : decode xx t = some c := by
  cases h with
  | stop _ _ => omega
  | step _ n k' c' hd rest =>
    have hc := parses_zero xx _ k' c' rest (by omega)
    rw [hc, Nat.add_zero]
    exact hd

theorem readBuffer_take12 (content : List Nat) (h : 12 ≤ content.length) :
    (readBuffer content).take 12 = content.take 12 := by
  have hl : (content.take 12).length ≤ maxRW := by
    have := maxRW_ge
    rw [List.length_take]
    omega
  rw [← readBuffer_take content 12 h, readBuffer_of_le _ hl]

theorem drop8_take4 (l : List Nat) : (l.drop 8).take 4 = (l.take 12).drop 8 := by
  rw [List.drop_take]

/-- The frame `StoreValue` writes for a payload of 2^32 bytes or more is never scanned
as exactly one record ending where the frame ends, whatever follows it and whatever
the digest function: its length field holds the length modulo 2^32. -/
theorem fileScan_oversized (xx : Sum64) (v rest : List Nat) (hv : 2 ^ 32 ≤ v.length) :
    fileScan xx (frame xx v ++ rest) ≠ Except.ok (1, 12 + v.length) := by
  intro h
  have hp := parses_of_recoveryScan xx _ 1 (12 + v.length) h
  have hd := parses_one xx _ 1 _ hp rfl
  obtain ⟨hn, _, _, _⟩ := decode_some_shape xx _ _ hd
  have hlen : 12 ≤ (frame xx v ++ rest).length := by
    rw [List.length_append, frame_length]
    omega
  have h4 : ((readBuffer (frame xx v ++ rest)).drop 8).take 4
      = putUint32 (v.length % 2 ^ 32) := by
    rw [drop8_take4, readBuffer_take12 _ hlen, ← drop8_take4, drop8_frame]
    exact List.take_left' (putUint32_length _)
  have hlt : v.length % 2 ^ 32 < 2 ^ 32 := Nat.mod_lt _ (by norm_num)
  rw [h4, uint32_putUint32 _ hlt] at hn
  omega

theorem frames_single_append (xx : Sum64) (v : List Nat) (rest : List Nat) :
    frames xx [v] ++ rest = frame xx v ++ rest := by
  simp only [frames, List.append_nil]

theorem frames_single_length (xx : Sum64) (v : List Nat) :
    (frames xx [v]).length = 12 + v.length := by
  simp only [frames, List.append_nil, frame_length]

theorem fileScan_oversized_single (xx : Sum64) (v rest : List Nat)
    (hv : 2 ^ 32 ≤ v.length) :
    fileScan xx (frames xx [v] ++ rest) ≠ Except.ok ([v].length, (frames xx [v]).length) := by
  rw [frames_single_append, frames_single_length]
  exact fileScan_oversized xx v rest hv

/-- C2 fails as stated.  First, the file is the one frame `StoreValue` writes for a
payload of 2^32 zero bytes, followed by no further bytes (fewer than 12 are left): the
scan does not report count 1 with the boundary at the end of the frame.  Second, the
file is the two frames written for 2^30 - 12 zero bytes and for `a`, 2^30 + 13 bytes,
followed by no further bytes: the scan reports count 1 and boundary 2^30, not count 2
and boundary 2^30 + 13. -/
theorem C2_counterexample :
    ([] : List Nat).length < 12 ∧
    fileScan xxhash64 (frames xxhash64 [zeroPayload (2 ^ 32)] ++ [])
      ≠ Except.ok ([zeroPayload (2 ^ 32)].length,
          (frames xxhash64 [zeroPayload (2 ^ 32)]).length) ∧
    (∀ v ∈ [zeroPayload (maxRW - 12), [97]], v.length ≤ 2 ^ 32 - 1) ∧
    (frames xxhash64 [zeroPayload (maxRW - 12), [97]]).length = maxRW + 13 ∧
    fileScan xxhash64 (frames xxhash64 [zeroPayload (maxRW - 12), [97]] ++ [])
      = Except.ok (1, maxRW) :=
  ⟨by decide, fileScan_oversized_single xxhash64 (zeroPayload (2 ^ 32)) []
      (by rw [zeroPayload_length]),
    large_payloads_bounded, large_frames_length,
    by rw [large_frames_split]; exact fileScan_past_one_read _⟩

/-- C2, amended: in a file of at most 2^30 bytes, when n frames written by
`StoreValue` for payloads of at most 2^32-1 bytes are followed by bytes whose decode
fails (fewer than 12 bytes, a length field reaching past the end, or a checksum
mismatch), the scan of the file reports count n and the boundary at the end of the
n-th frame, whatever comes later in the file; and the `TestCorruption` run reopens
with count 2. -/
theorem C2_scan_stops_at_first_failure (xx : Sum64) (vs : List (List Nat))
    (tail : List Nat)
    (hlen : ∀ v ∈ vs, v.length ≤ 2 ^ 32 - 1)
    (hsize : (frames xx vs ++ tail).length ≤ 2 ^ 30)
    (hfail : tail.length < 12 ∨ tail.length < 12 + uint32 ((tail.drop 8).take 4) ∨
      getChecksum xx ((tail.drop 8).take 4)
        ((tail.drop 12).take (uint32 ((tail.drop 8).take 4))) ≠ tail.take 8) :
    fileScan xx (frames xx vs ++ tail) = Except.ok (vs.length, (frames xx vs).length) ∧
    TestCorruption xxhash64 (tempWorld "/tmp/plog2") "/tmp/plog2" = Except.ok (some 2) :=
  ⟨fileScan_frames xx vs tail (lt_of_le_pred vs hlen) hsize
      (decode_none_of_fails xx tail hfail),
    testCorruption_run⟩

set_option maxRecDepth 100000 in
/-- Witness of C2, amended: two stored values followed by a frame cut by three bytes
and by a further well-formed frame. -/
theorem C2_scan_stops_at_first_failure_witness :
    fileScan xxhash64 (frames xxhash64 [bytesOf "this is a test", bytesOf "this is a "]
        ++ ((frame xxhash64 (bytesOf "this is")).take 16 ++ frame xxhash64 (bytesOf "123456789123")))
      = Except.ok (2, (frames xxhash64 [bytesOf "this is a test", bytesOf "this is a "]).length) ∧
    TestCorruption xxhash64 (tempWorld "/tmp/plog2") "/tmp/plog2" = Except.ok (some 2) :=
  C2_scan_stops_at_first_failure xxhash64 [bytesOf "this is a test", bytesOf "this is a "]
    ((frame xxhash64 (bytesOf "this is")).take 16 ++ frame xxhash64 (bytesOf "123456789123"))
    (by decide) (by decide) (Or.inr (Or.inr (by decide)))

theorem decode_cut_frame (xx : Sum64) (v : List Nat) (m : Nat) (hv : v.length < 2 ^ 32)
    (hm : m < 12 + v.length) : decode xx ((frame xx v).take m) = none := by
  have hlen : ((frame xx v).take m).length = m := by
    rw [List.length_take, frame_length]
    omega
  unfold decode
  rw [hlen]
  by_cases h12 : 12 ≤ m
  · have h4 : (((frame xx v).take m).drop 8).take 4 = putUint32 v.length := by
      rw [List.drop_take, List.take_take]
      have hmin : min 4 (m - 8) = 4 := by omega
      have h8 := drop8_frame xx v []
      rw [List.append_nil] at h8
      rw [hmin, h8, Nat.mod_eq_of_lt hv]
      exact List.take_left' (putUint32_length _)
    rw [if_pos h12, h4, uint32_putUint32 v.length hv, if_neg (by omega)]
  · rw [if_neg h12]

theorem cut_frames (xx : Sum64) (vs : List (List Nat)) (last : List Nat) (K : Nat)
    (hK : K ≤ 12 + last.length) :
    (frames xx (vs ++ [last])).take ((frames xx (vs ++ [last])).length - K)
      = frames xx vs ++ (frame xx last).take (12 + last.length - K) := by
  have hsplit : frames xx (vs ++ [last]) = frames xx vs ++ frame xx last := by
    rw [frames_append]
    simp only [frames, List.append_nil]
  rw [hsplit, List.length_append, frame_length]
  have e : (frames xx vs).length + (12 + last.length) - K
      = (frames xx vs).length + (12 + last.length - K) := by omega
  rw [e, List.take_append]

/-- C3 fails as stated.  First, the file holds the frame `StoreValue` writes for a
payload of 2^32 zero bytes and the 12-byte frame of the empty payload; K = 1 is inside
the last frame, and the scan of the file without its last byte does not report count 1
with the boundary at the end of the first frame.  Second, the file holds the frames
written for 2^30 - 12 zero bytes, for `a` and for `b`; without its last byte it scans
to count 1 and boundary 2^30, not to count 2 and boundary 2^30 + 13. -/
theorem C3_counterexample :
    1 ≤ 1 ∧ 1 < 12 + ([] : List Nat).length ∧
    fileScan xxhash64
        ((frames xxhash64 ([zeroPayload (2 ^ 32)] ++ [[]])).take
          ((frames xxhash64 ([zeroPayload (2 ^ 32)] ++ [[]])).length - 1))
      ≠ Except.ok ([zeroPayload (2 ^ 32)].length,
          (frames xxhash64 [zeroPayload (2 ^ 32)]).length) ∧
    (∀ v ∈ [zeroPayload (maxRW - 12), [97]], v.length ≤ 2 ^ 32 - 1) ∧
    (frames xxhash64 [zeroPayload (maxRW - 12), [97]]).length = maxRW + 13 ∧
    fileScan xxhash64
        ((frames xxhash64 ([zeroPayload (maxRW - 12), [97]] ++ [[98]])).take
          ((frames xxhash64 ([zeroPayload (maxRW - 12), [97]] ++ [[98]])).length - 1))
      = Except.ok (1, maxRW) := by
  refine ⟨by decide, by decide, ?_, large_payloads_bounded, large_frames_length, ?_⟩
  · rw [cut_frames xxhash64 [zeroPayload (2 ^ 32)] [] 1 (by decide)]
    exact fileScan_oversized_single xxhash64 (zeroPayload (2 ^ 32)) _
      (by rw [zeroPayload_length])
  · rw [cut_frames xxhash64 [zeroPayload (maxRW - 12), [97]] [98] 1 (by decide),
      large_frames_split]
    exact fileScan_past_one_read _

/-- C3, amended: for a file of at most 2^30 bytes made of n ≥ 1 frames written by
`StoreValue` for payloads of at most 2^32-1 bytes, removing the final K bytes, with
1 ≤ K < 12 + len(last payload), makes the scan report count n-1 and the boundary at the
end of frame n-1 (0 when n = 1), for any checksum function. -/
theorem C3_cut_last_frame (xx : Sum64) (vs : List (List Nat)) (last : List Nat) (K : Nat)
    (hlen : ∀ v ∈ vs, v.length ≤ 2 ^ 32 - 1) (hlast : last.length ≤ 2 ^ 32 - 1)
    (hsize : (frames xx (vs ++ [last])).length ≤ 2 ^ 30)
    (hK1 : 1 ≤ K) (hK2 : K < 12 + last.length) :
    fileScan xx
        ((frames xx (vs ++ [last])).take ((frames xx (vs ++ [last])).length - K))
      = Except.ok (vs.length, (frames xx vs).length) := by
  have hcut := cut_frames xx vs last K (by omega)
  have hsz : (frames xx vs ++ (frame xx last).take (12 + last.length - K)).length
      ≤ maxRW := by
    rw [← hcut, List.length_take]
    have : maxRW = 2 ^ 30 := rfl
    omega
  rw [hcut]
  exact fileScan_frames xx vs _ (lt_of_le_pred vs hlen) hsz
    (decode_cut_frame xx last _ (by omega) (by omega))

set_option maxRecDepth 100000 in
/-- Witness of C3, amended: three stored values, the file cut by 3 bytes. -/
theorem C3_cut_last_frame_witness :
    fileScan xxhash64
        ((frames xxhash64 ([[1, 2], [3]] ++ [[4, 5, 6, 7]])).take
          ((frames xxhash64 ([[1, 2], [3]] ++ [[4, 5, 6, 7]])).length - 3))
      = Except.ok (2, (frames xxhash64 [[1, 2], [3]]).length) :=
  C3_cut_last_frame xxhash64 [[1, 2], [3]] [4, 5, 6, 7] 3 (by decide) (by decide)
    (by decide) (by decide) (by decide)

/-- C4 at a failing input: `data.log` holds three bytes that are no frame.  The scan
ends with the last valid boundary 0, `NewPeristentLog("data.log")` returns a handle
and a nil error, and the file still holds its three bytes: the truncation is applied
to the path `log.dat`, not to the opened file. -/
theorem C4_truncate_misses_opened_file (xx : Sum64) :
    recoveryScan xx [1, 2, 3] = Except.ok (0, 0) ∧
    ∃ w1 p1, NewPeristentLog xx OpenCalls.allSucceed garbageWorld "data.log"
        = Except.ok (w1, Except.ok p1) ∧
      w1.files "data.log" = some [1, 2, 3] ∧ w1.files "log.dat" = none :=
  ⟨rfl, _, _, rfl, rfl, rfl⟩

set_option maxRecDepth 100000 in
/-- C5 at a failing input: `data.log` holds three bytes that are no frame.  The first
open reports count 0, the store of the one-byte value `a` succeeds and appends its
frame after the three bytes, and the next open reports count 0 again, not 1. -/
theorem C5_stored_record_not_counted :
    ∃ w1 p1 w3 p3, NewPeristentLog xxhash64 OpenCalls.allSucceed garbageWorld "data.log"
        = Except.ok (w1, Except.ok p1) ∧
      MaxLogIndex p1 = 0 ∧
      MaxLogIndex (StoreValue xxhash64 StoreCalls.allSucceed w1 p1 [97]).2 = 1 ∧
      (StoreValue xxhash64 StoreCalls.allSucceed w1 p1 [97]).1.files "data.log"
        = some ([1, 2, 3] ++ frame xxhash64 [97]) ∧
      NewPeristentLog xxhash64 OpenCalls.allSucceed
          (StoreValue xxhash64 StoreCalls.allSucceed w1 p1 [97]).1 "data.log"
        = Except.ok (w3, Except.ok p3) ∧
      MaxLogIndex p3 = 0 :=
  ⟨_, _, _, _, rfl, rfl, rfl, rfl, rfl, rfl⟩

theorem recoveryScan_total (xx : Sum64) (raw : List Nat) :
    ∃ k c, recoveryScan xx raw = Except.ok (k, c) := by
  obtain ⟨k, c, hp⟩ := parses_total xx raw.length raw (Nat.le_refl _)
  exact ⟨k, c, recoveryScan_of_parses xx raw k c hp⟩

/-- C7: a successful `StoreValue` of a payload of at most 2^32-1 bytes appends to the
end of the file exactly: the 8 bytes, most significant first, of the digest `d` of
(length bytes ++ payload), then the 4 length bytes `lb`, the big-endian encoding of
the payload length, then the payload.  The file grows by 12 + len(payload) bytes, the
earlier bytes and the other files are unchanged, and an empty payload appends 12
bytes. -/
theorem C7_store_appends_frame (xx : Sum64) (w : World) (p : PersistentLog)
    (c value lb : List Nat) (d : Nat)
    (hopen : p.file.closed = false) (hfile : w.files p.file.name = some c)
    (hlen : value.length ≤ 2 ^ 32 - 1)
    (hlb : lb = [value.length / 2 ^ 24 % 256, value.length / 2 ^ 16 % 256,
                 value.length / 2 ^ 8 % 256, value.length % 256])
    (hd : d = xx (lb ++ value)) :
    (StoreValue xx StoreCalls.allSucceed w p value).1.files p.file.name
      = some (c ++ ([d / 2 ^ 56 % 256, d / 2 ^ 48 % 256, d / 2 ^ 40 % 256, d / 2 ^ 32 % 256,
                     d / 2 ^ 24 % 256, d / 2 ^ 16 % 256, d / 2 ^ 8 % 256, d % 256]
                    ++ lb ++ value)) ∧
    lb.length = 4 ∧ (∀ b ∈ lb, b < 256) ∧
    lb.foldl (fun acc b => acc * 256 + b) 0 = value.length ∧
    (c ++ ([d / 2 ^ 56 % 256, d / 2 ^ 48 % 256, d / 2 ^ 40 % 256, d / 2 ^ 32 % 256,
            d / 2 ^ 24 % 256, d / 2 ^ 16 % 256, d / 2 ^ 8 % 256, d % 256]
           ++ lb ++ value)).length = c.length + (12 + value.length) ∧
    (∀ other, other ≠ p.file.name →
      (StoreValue xx StoreCalls.allSucceed w p value).1.files other = w.files other) ∧
    (value = [] →
      ([d / 2 ^ 56 % 256, d / 2 ^ 48 % 256, d / 2 ^ 40 % 256, d / 2 ^ 32 % 256,
        d / 2 ^ 24 % 256, d / 2 ^ 16 % 256, d / 2 ^ 8 % 256, d % 256]
       ++ lb ++ value).length = 12) := by
  have hm : value.length % 2 ^ 32 = value.length := Nat.mod_eq_of_lt (by omega)
  subst hlb hd
  refine ⟨?_, rfl, ?_, ?_, ?_, ?_, ?_⟩
  · rw [StoreValue_appends xx w p c value hopen hfile, put_files_same]
    simp only [frame, hm, getChecksum, sumBytes, putUint32]
  · intro b hb
    simp only [List.mem_cons, List.mem_singleton, List.not_mem_nil, or_false] at hb
    rcases hb with rfl | rfl | rfl | rfl <;> exact Nat.mod_lt _ (by norm_num)
  · simp only [List.foldl]
    omega
  · simp only [List.length_append, List.length_cons, List.length_nil]
  · intro other ho
    rw [StoreValue_appends xx w p c value hopen hfile]
    exact put_files_other w _ other _ ho
  · intro hv
    simp only [List.length_append, List.length_cons, List.length_nil, hv]

set_option maxRecDepth 100000 in
/-- Witness of C7: storing the two bytes `hi` on an open log whose file holds one
byte; the XXH64 digest of `00 00 00 02 68 69` is `26fe6f5911b3e006`. -/
theorem C7_store_appends_frame_witness :
    (StoreValue xxhash64 StoreCalls.allSucceed (oneFileWorld [7])
        { file := { name := "a.log", closed := false }, filename := "a.log",
          maxLogIndex := 0 } [104, 105]).1.files "a.log"
      = some ([7] ++ ([38, 254, 111, 89, 17, 179, 224, 6] ++ [0, 0, 0, 2] ++ [104, 105])) :=
  (C7_store_appends_frame xxhash64 (oneFileWorld [7])
    { file := { name := "a.log", closed := false }, filename := "a.log", maxLogIndex := 0 }
    [7] [104, 105] [0, 0, 0, 2] 2809805645865541638 rfl (by simp [oneFileWorld]) (by decide)
    (by decide) (by rfl)).1

/-- C8: with every call succeeding, opening a path at which no file exists creates an
empty file there and returns a handle with `MaxLogIndex = 0`; opening an existing
empty file returns a handle with `MaxLogIndex = 0` and changes no file. -/
theorem C8_open_absent_or_empty (xx : Sum64) (w : World) (path : String) :
    (w.files path = none →
      ∃ w1 p, NewPeristentLog xx OpenCalls.allSucceed w path = Except.ok (w1, Except.ok p) ∧
        w1.files path = some [] ∧ MaxLogIndex p = 0) ∧
    (w.files path = some [] →
      ∃ p, NewPeristentLog xx OpenCalls.allSucceed w path = Except.ok (w, Except.ok p) ∧
        MaxLogIndex p = 0) := by
  constructor
  · intro h
    exact ⟨_, _, NewPeristentLog_create xx OpenCalls.allSucceed w path rfl rfl rfl h,
      put_files_same w path [], rfl⟩
  · intro h
    have hnil : fileScan xx [] = Except.ok (0, ([] : List Nat).length) := by
      rw [fileScan_of_le xx [] (Nat.zero_le _)]
      simpa using recoveryScan_of_parses xx [] 0 0 (parses_nil xx)
    exact ⟨_, NewPeristentLog_valid xx w path [] 0 h hnil, rfl⟩

/-- Witness of C8: a file system without files, and one with one empty file. -/
theorem C8_open_absent_or_empty_witness :
    (∃ w1 p, NewPeristentLog xxhash64 OpenCalls.allSucceed { files := fun _ => none } "a.log"
        = Except.ok (w1, Except.ok p) ∧ w1.files "a.log" = some [] ∧ MaxLogIndex p = 0) ∧
    (∃ p, NewPeristentLog xxhash64 OpenCalls.allSucceed (oneFileWorld []) "a.log"
        = Except.ok (oneFileWorld [], Except.ok p) ∧ MaxLogIndex p = 0) :=
  ⟨(C8_open_absent_or_empty xxhash64 { files := fun _ => none } "a.log").1 rfl,
    (C8_open_absent_or_empty xxhash64 (oneFileWorld []) "a.log").2 (by simp [oneFileWorld])⟩

theorem take8_set (l : List Nat) (i b : Nat) (hi : 8 ≤ i) :
    (l.set i b).take 8 = l.take 8 := by
  rw [List.set_take]
  apply List.set_eq_of_length_le
  rw [List.length_take]
  omega

set_option maxRecDepth 100000 in
theorem collision_scan :
    fileScan xxhash64 ((frames xxhash64 [collidingPayload]).set 11 4) = Except.ok (1, 16) := by
  rfl

set_option maxRecDepth 100000 in
/-- C9 fails as stated.  First, the log holds the single frame of `collidingPayload`;
its length field is the bytes 8..11, holding `0 0 0 12`.  With byte 11 changed from 12
to 4 and the checksum bytes left as written, the scan still accepts the frame, now
with a 4-byte payload, and reports count 1 and boundary 16 instead of count 0 and
boundary 0.  Second, when frame 1 is the one `StoreValue` writes for a payload of 2^32
zero bytes and the first payload byte of frame 2 is changed, the scan does not report
count 1 with the boundary at the start of frame 2.  Third, when the frames written for
2^30 - 12 zero bytes and for `a` are followed by the frame of `b` with its payload
byte changed, the scan reports count 1 and boundary 2^30, not count 2 and boundary
2^30 + 13. -/
theorem C9_counterexample :
    frames xxhash64 [collidingPayload]
      = [7, 131, 197, 91, 20, 176, 183, 148, 0, 0, 0, 12,
         100, 97, 116, 97, 19, 37, 188, 175, 247, 201, 92, 26] ∧
    fileScan xxhash64 (frames xxhash64 [collidingPayload]) = Except.ok (1, 24) ∧
    fileScan xxhash64 ((frames xxhash64 [collidingPayload]).set 11 4) = Except.ok (1, 16) ∧
    fileScan xxhash64 ((frames xxhash64 [collidingPayload]).set 11 4) ≠ Except.ok (0, 0) ∧
    fileScan xxhash64
        ((frames xxhash64 [zeroPayload (2 ^ 32)] ++ frame xxhash64 [3, 4, 5]).set
          ((frames xxhash64 [zeroPayload (2 ^ 32)]).length + 12) 200)
      ≠ Except.ok ([zeroPayload (2 ^ 32)].length,
          (frames xxhash64 [zeroPayload (2 ^ 32)]).length) ∧
    (frames xxhash64 [zeroPayload (maxRW - 12), [97]]).length = maxRW + 13 ∧
    fileScan xxhash64
        ((frames xxhash64 [zeroPayload (maxRW - 12), [97]] ++ frame xxhash64 [98]).set
          ((frames xxhash64 [zeroPayload (maxRW - 12), [97]]).length + 12) 200)
      = Except.ok (1, maxRW) := by
  refine ⟨by rfl, by rfl, collision_scan, ?_, ?_, large_frames_length, ?_⟩
  · rw [collision_scan]
    simp
  · rw [List.set_append, if_neg (by omega), Nat.add_sub_cancel_left]
    exact fileScan_oversized_single xxhash64 (zeroPayload (2 ^ 32)) _
      (by rw [zeroPayload_length])
  · rw [List.set_append, if_neg (by omega), Nat.add_sub_cancel_left, large_frames_split]
    exact fileScan_past_one_read _

/-- C9, amended: in a file of at most 2^30 bytes, frames written by `StoreValue` for
payloads of at most 2^32-1 bytes are followed by a frame in which one byte of the
length field or of the payload is replaced (offset `i` inside the frame,
`8 ≤ i < 12 + len`), and by any later bytes.  Whenever the altered length bytes and
the payload bytes they select do not hash to the checksum stored in the frame, the
scan of the file reports the count of the frames before it and the boundary at its
start. -/
theorem C9_altered_frame_discarded (xx : Sum64) (vs : List (List Nat)) (v rest t : List Nat)
    (i b : Nat)
    (hlen : ∀ u ∈ vs, u.length ≤ 2 ^ 32 - 1)
    (hsize : (frames xx vs ++ (frame xx v ++ rest)).length ≤ 2 ^ 30)
    (hi1 : 8 ≤ i) (_hi2 : i < 12 + v.length)
    (ht : t = (frame xx v ++ rest).set i b)
    (hmis : 12 + uint32 ((t.drop 8).take 4) ≤ t.length →
      getChecksum xx ((t.drop 8).take 4) ((t.drop 12).take (uint32 ((t.drop 8).take 4)))
        ≠ getChecksum xx (putUint32 (v.length % 2 ^ 32)) v) :
    (frames xx vs ++ (frame xx v ++ rest)).set ((frames xx vs).length + i) b
      = frames xx vs ++ t ∧
    fileScan xx ((frames xx vs ++ (frame xx v ++ rest)).set ((frames xx vs).length + i) b)
      = Except.ok (vs.length, (frames xx vs).length) := by
  have hset : (frames xx vs ++ (frame xx v ++ rest)).set ((frames xx vs).length + i) b
      = frames xx vs ++ t := by
    rw [List.set_append, if_neg (by omega), ht, Nat.add_sub_cancel_left]
  have h8 : t.take 8 = getChecksum xx (putUint32 (v.length % 2 ^ 32)) v := by
    rw [ht, take8_set _ i b hi1, take8_frame]
  have hd : decode xx t = none := by
    unfold decode
    split_ifs with h1 h2 h3
    · rw [h8] at h3
      exact absurd h3 (hmis h2)
    · rfl
    · rfl
    · rfl
  have hsz : (frames xx vs ++ t).length ≤ maxRW := by
    have e : maxRW = 2 ^ 30 := rfl
    rw [← hset, List.length_set, e]
    exact hsize
  rw [hset]
  exact ⟨rfl, fileScan_frames xx vs t (lt_of_le_pred vs hlen) hsz hd⟩

set_option maxRecDepth 100000 in
/-- Witness of C9, amended: the second of two frames has its first payload byte
changed from 3 to 200. -/
theorem C9_altered_frame_discarded_witness :
    fileScan xxhash64
        ((frames xxhash64 [[1, 2]] ++ (frame xxhash64 [3, 4, 5] ++ frame xxhash64 [6])).set
          ((frames xxhash64 [[1, 2]]).length + 12) 200)
      = Except.ok (1, (frames xxhash64 [[1, 2]]).length) :=
  (C9_altered_frame_discarded xxhash64 [[1, 2]] [3, 4, 5] (frame xxhash64 [6])
    ((frame xxhash64 [3, 4, 5] ++ frame xxhash64 [6]).set 12 200) 12 200
    (by decide) (by decide) (by decide) (by decide) rfl (fun _ => by decide)).2

/-- C10 fails as stated: on a closed handle the write of `StoreValue` fails and
writes nothing, and `MaxLogIndex` still goes from 0 to 1. -/
theorem C10_counterexample :
    (StoreValue xxhash64 StoreCalls.allSucceed (oneFileWorld [])
        (Close freshLog) [104, 105]).1.files "a.log" = some [] ∧
    MaxLogIndex (Close freshLog) = 0 ∧
    MaxLogIndex (StoreValue xxhash64 StoreCalls.allSucceed (oneFileWorld [])
        (Close freshLog) [104, 105]).2 = 1 :=
  ⟨rfl, rfl, rfl⟩

/-- C10, amended: `StoreValue` increments the record count by exactly one on every
call, whether or not the append write or the sync fails. -/
theorem C10_store_always_counts (xx : Sum64) (io : StoreCalls) (w : World)
    (p : PersistentLog) (value : List Nat) :
    MaxLogIndex (StoreValue xx io w p value).2 = MaxLogIndex p + 1 :=
  rfl

set_option maxRecDepth 100000 in
/-- Known answers of XXH64 with seed 0, among them a message longer than one
32-byte stripe. -/
theorem xxhash64_known_answers :
    xxhash64 [] = 0xEF46DB3751D8E999 ∧
    xxhash64 (bytesOf "a") = 0xD24EC4F1A98C6E5B ∧
    xxhash64 (bytesOf "abc") = 0x44BC2CF5AD770999 ∧
    xxhash64 (bytesOf "Call me Ishmael. Some years ago--never mind how long precisely-")
      = 0x02A2E85470D6FD96 := by
  refine ⟨by rfl, by rfl, by rfl, by rfl⟩

theorem freshLog_file (c : List Nat) :
    (oneFileWorld c).files freshLog.file.name = some c := by
  simp [oneFileWorld, freshLog]

/-- C11 fails as stated: `StoreValue` of a payload of 2^32 bytes returns no error and
appends a frame to the file, with the length field `0 0 0 0` followed by all 2^32
payload bytes, and counts it. -/
theorem C11_counterexample :
    2 ^ 32 - 1 < (zeroPayload (2 ^ 32)).length ∧
    (StoreValue xxhash64 StoreCalls.allSucceed (oneFileWorld []) freshLog
        (zeroPayload (2 ^ 32))).1.files "a.log"
      = some (getChecksum xxhash64 [0, 0, 0, 0] (zeroPayload (2 ^ 32)) ++ [0, 0, 0, 0]
          ++ zeroPayload (2 ^ 32)) ∧
    MaxLogIndex (StoreValue xxhash64 StoreCalls.allSucceed (oneFileWorld []) freshLog
        (zeroPayload (2 ^ 32))).2 = 1 := by
  refine ⟨?_, ?_, rfl⟩
  · rw [zeroPayload_length]
    norm_num
  · have h1 : (StoreValue xxhash64 StoreCalls.allSucceed (oneFileWorld []) freshLog
          (zeroPayload (2 ^ 32))).1.files "a.log"
        = ((oneFileWorld []).put freshLog.file.name
            ([] ++ frame xxhash64 (zeroPayload (2 ^ 32)))).files "a.log" := by
      rw [StoreValue_appends xxhash64 (oneFileWorld []) freshLog [] (zeroPayload (2 ^ 32)) rfl
        (freshLog_file [])]
    have h2 : ((oneFileWorld []).put freshLog.file.name
          ([] ++ frame xxhash64 (zeroPayload (2 ^ 32)))).files "a.log"
        = some ([] ++ frame xxhash64 (zeroPayload (2 ^ 32))) := put_files_same _ _ _
    have h3 : frame xxhash64 (zeroPayload (2 ^ 32))
        = getChecksum xxhash64 [0, 0, 0, 0] (zeroPayload (2 ^ 32)) ++ [0, 0, 0, 0]
          ++ zeroPayload (2 ^ 32) := by
      have hmod : (zeroPayload (2 ^ 32)).length % 2 ^ 32 = 0 := by
        rw [zeroPayload_length, Nat.mod_self]
      have hput : putUint32 0 = [0, 0, 0, 0] := rfl
      unfold frame
      rw [hmod, hput]
    rw [h1, h2, List.nil_append, h3]

/-- C11, amended: `StoreValue` has no size check and no error result.  For a payload
longer than 2^32-1 bytes a successful store appends the checksum, the four bytes of
the length modulo 2^32 (which decode to a value other than the length) and the whole
payload, and increments the count. -/
theorem C11_store_wraps_length (xx : Sum64) (w : World) (p : PersistentLog)
    (c value : List Nat)
    (hopen : p.file.closed = false) (hfile : w.files p.file.name = some c)
    (hbig : 2 ^ 32 - 1 < value.length) :
    (StoreValue xx StoreCalls.allSucceed w p value).1.files p.file.name
      = some (c ++ (getChecksum xx (putUint32 (value.length % 2 ^ 32)) value
          ++ putUint32 (value.length % 2 ^ 32) ++ value)) ∧
    uint32 (putUint32 (value.length % 2 ^ 32)) = value.length % 2 ^ 32 ∧
    uint32 (putUint32 (value.length % 2 ^ 32)) ≠ value.length ∧
    MaxLogIndex (StoreValue xx StoreCalls.allSucceed w p value).2 = MaxLogIndex p + 1 := by
  have hlt : value.length % 2 ^ 32 < 2 ^ 32 := Nat.mod_lt _ (by norm_num)
  have hu := uint32_putUint32 (value.length % 2 ^ 32) hlt
  refine ⟨?_, hu, ?_, rfl⟩
  · rw [StoreValue_appends xx w p c value hopen hfile, put_files_same]
    rfl
  · rw [hu]
    omega

/-- Witness of C11, amended: a payload of 2^32 + 1 bytes. -/
theorem C11_store_wraps_length_witness :
    uint32 (putUint32 ((zeroPayload (2 ^ 32 + 1)).length % 2 ^ 32))
      ≠ (zeroPayload (2 ^ 32 + 1)).length ∧
    MaxLogIndex (StoreValue xxhash64 StoreCalls.allSucceed (oneFileWorld []) freshLog
        (zeroPayload (2 ^ 32 + 1))).2 = MaxLogIndex freshLog + 1 :=
  ⟨(C11_store_wraps_length xxhash64 (oneFileWorld []) freshLog [] (zeroPayload (2 ^ 32 + 1))
      rfl (freshLog_file []) (by rw [zeroPayload_length]; norm_num)).2.2.1,
    (C11_store_wraps_length xxhash64 (oneFileWorld []) freshLog [] (zeroPayload (2 ^ 32 + 1))
      rfl (freshLog_file []) (by rw [zeroPayload_length]; norm_num)).2.2.2⟩

theorem parses_records (xx : Sum64) (t : List Nat) (k c : Nat) (h : Parses xx t k c) :
    ∃ recs : List (List Nat × List Nat), recs.length = k ∧
      t.take c = encodeRecords xx recs ∧
      ∀ r ∈ recs, r.1.length = 4 ∧ uint32 r.1 = r.2.length ∧ ∀ b ∈ r.1, b ∈ t := by
  induction h with
  | stop t h => exact ⟨[], rfl, by simp [encodeRecords], by simp⟩
  | step t n k c h rest ih =>
    obtain ⟨recs, hk, henc, hall⟩ := ih
    obtain ⟨_, h4, hd, htake⟩ := decode_some_shape xx t n h
    refine ⟨((t.drop 8).take 4, (t.drop 12).take (uint32 ((t.drop 8).take 4))) :: recs,
      by simp [hk], ?_, ?_⟩
    · rw [List.take_add, htake, henc]
      simp [encodeRecords, List.append_assoc]
    · intro r hr
      rcases List.mem_cons.mp hr with rfl | hr'
      · exact ⟨h4, hd.symm, fun b hb => List.mem_of_mem_drop (List.mem_of_mem_take hb)⟩
      · obtain ⟨a1, a2, a3⟩ := hall r hr'
        exact ⟨a1, a2, fun b hb => List.mem_of_mem_drop (a3 b hb)⟩

theorem putUint32_uint32 (lb : List Nat) (h4 : lb.length = 4) (hb : ∀ b ∈ lb, b < 256) :
    uint32 lb < 2 ^ 32 ∧ putUint32 (uint32 lb) = lb := by
  match lb, h4 with
  | [b0, b1, b2, b3], _ =>
    have h0 := hb b0 (by simp)
    have h1 := hb b1 (by simp)
    have h2 := hb b2 (by simp)
    have h3 := hb b3 (by simp)
    simp only [uint32, putUint32]
    refine ⟨by omega, ?_⟩
    congr 1
    · omega
    · congr 1
      · omega
      · congr 1
        · omega
        · congr 1
          omega

theorem encodeRecords_eq_frames (xx : Sum64) (recs : List (List Nat × List Nat))
    (h : ∀ r ∈ recs, r.1 = putUint32 (r.2.length % 2 ^ 32)) :
    encodeRecords xx recs = frames xx (recs.map Prod.snd) := by
  induction recs with
  | nil => rfl
  | cons r rs ih =>
    have hr := h r (List.mem_cons_self r rs)
    have ih' := ih (fun u hu => h u (List.mem_cons_of_mem r hu))
    simp only [encodeRecords, List.map_cons, frames, frame, ih']
    rw [← hr]

/-- The scan of any buffer returns a count and a boundary with
boundary ≤ buffer size, and the buffer bytes below the boundary are exactly `count`
records in sequence, each the 8 checksum bytes of (length bytes ++ payload), then 4 length bytes
whose big-endian value is the payload length, then the payload.  When every byte of
the buffer is below 256 these are the frames `StoreValue` writes for the payloads. -/
theorem scanned_buffer_is_records (xx : Sum64) (raw : List Nat) :
    ∃ (k c : Nat) (recs : List (List Nat × List Nat)),
      recoveryScan xx raw = Except.ok (k, c) ∧ 0 ≤ c ∧ c ≤ raw.length ∧
      recs.length = k ∧
      raw.take c = encodeRecords xx recs ∧
      (∀ r ∈ recs, (getChecksum xx r.1 r.2).length = 8 ∧ r.1.length = 4 ∧
        uint32 r.1 = r.2.length) ∧
      ((∀ b ∈ raw, b < 256) →
        raw.take c = frames xx (recs.map Prod.snd) ∧
        ∀ r ∈ recs, r.2.length ≤ 2 ^ 32 - 1) := by
  obtain ⟨k, c, hp⟩ := parses_total xx raw.length raw (Nat.le_refl _)
  obtain ⟨recs, hk, henc, hall⟩ := parses_records xx raw k c hp
  have hb := parses_bounds xx raw k c hp
  refine ⟨k, c, recs, recoveryScan_of_parses xx raw k c hp, Nat.zero_le c, hb.2, hk, henc,
    fun r hr => ⟨rfl, (hall r hr).1, (hall r hr).2.1⟩, ?_⟩
  intro hbytes
  have hput : ∀ r ∈ recs, r.2.length < 2 ^ 32 ∧ r.1 = putUint32 (r.2.length % 2 ^ 32) := by
    intro r hr
    obtain ⟨a1, a2, a3⟩ := hall r hr
    obtain ⟨c1, c2⟩ := putUint32_uint32 r.1 a1 (fun b hb' => hbytes b (a3 b hb'))
    rw [a2] at c1 c2
    exact ⟨c1, by rw [Nat.mod_eq_of_lt c1, c2]⟩
  refine ⟨?_, fun r hr => by have := (hput r hr).1; omega⟩
  rw [henc]
  exact encodeRecords_eq_frames xx recs (fun r hr => (hput r hr).2)

theorem decode_record (xx : Sum64) (lb d rest : List Nat) (h4 : lb.length = 4)
    (hu : uint32 lb = d.length) :
    decode xx (getChecksum xx lb d ++ lb ++ d ++ rest) = some (12 + d.length) ∧
    (getChecksum xx lb d ++ lb ++ d ++ rest).drop (12 + d.length) = rest := by
  have e : getChecksum xx lb d ++ lb ++ d ++ rest
      = getChecksum xx lb d ++ (lb ++ (d ++ rest)) := by
    simp only [List.append_assoc]
  have hlen : (getChecksum xx lb d ++ (lb ++ (d ++ rest))).length
      = 12 + d.length + rest.length := by
    simp only [List.length_append, getChecksum_length, h4]
    omega
  have h8 : (getChecksum xx lb d ++ (lb ++ (d ++ rest))).take 8 = getChecksum xx lb d :=
    List.take_left' (getChecksum_length xx lb d)
  have hd8 : (getChecksum xx lb d ++ (lb ++ (d ++ rest))).drop 8 = lb ++ (d ++ rest) :=
    List.drop_left' (getChecksum_length xx lb d)
  have hd12 : (getChecksum xx lb d ++ (lb ++ (d ++ rest))).drop 12 = d ++ rest := by
    have h : (getChecksum xx lb d ++ (lb ++ (d ++ rest))).drop 12
        = ((getChecksum xx lb d ++ (lb ++ (d ++ rest))).drop 8).drop 4 := by
      rw [List.drop_drop]
    rw [h, hd8]
    exact List.drop_left' h4
  have hlb : ((getChecksum xx lb d ++ (lb ++ (d ++ rest))).drop 8).take 4 = lb := by
    rw [hd8]
    exact List.take_left' h4
  rw [e]
  constructor
  · unfold decode
    rw [hlb, hu, hd12, h8, List.take_left' rfl, hlen, if_pos (by omega), if_pos (by omega),
      if_pos rfl]
  · have h : (getChecksum xx lb d ++ (lb ++ (d ++ rest))).drop (12 + d.length)
        = ((getChecksum xx lb d ++ (lb ++ (d ++ rest))).drop 12).drop d.length := by
      rw [List.drop_drop]
    rw [h, hd12]
    exact List.drop_left' rfl

theorem parses_encodeRecords (xx : Sum64) (recs : List (List Nat × List Nat))
    (hall : ∀ r ∈ recs, r.1.length = 4 ∧ uint32 r.1 = r.2.length) :
    ∃ c, Parses xx (encodeRecords xx recs) recs.length c := by
  induction recs with
  | nil => exact ⟨0, parses_nil xx⟩
  | cons r rs ih =>
    obtain ⟨c, hc⟩ := ih (fun u hu => hall u (List.mem_cons_of_mem r hu))
    obtain ⟨h4, hu⟩ := hall r (List.mem_cons_self r rs)
    obtain ⟨hd, hdrop⟩ := decode_record xx r.1 r.2 (encodeRecords xx rs) h4 hu
    refine ⟨12 + r.2.length + c, ?_⟩
    have hs := Parses.step (getChecksum xx r.1 r.2 ++ r.1 ++ r.2 ++ encodeRecords xx rs)
      (12 + r.2.length) rs.length c hd (by rw [hdrop]; exact hc)
    simpa [encodeRecords] using hs

set_option maxRecDepth 100000 in
theorem decode_corrupt_tail :
    decode xxhash64 ([141, 66, 100, 200, 53, 172, 144, 9] ++ [0, 0, 0, 2] ++ [0, 1]) = none := by
  rfl

set_option maxRecDepth 100000 in
theorem frame_two_zeros :
    frame xxhash64 [0, 0] = [141, 66, 100, 200, 53, 172, 144, 9] ++ [0, 0, 0, 2] ++ [0, 0] := by
  rfl

set_option maxRecDepth 100000 in
/-- C13 at a failing input: the file holds the frame `StoreValue` writes for
2^30 - 25 zero bytes, then the 14 bytes `8d 42 64 c8 35 ac 90 09`, `00 00 00 02`,
`00 01`, in all 2^30 + 1 bytes.  The 8 bytes are the checksum of `00 00 00 02 00 00`,
not of `00 00 00 02 00 01`, so the last 14 bytes are no valid frame and the file is not
a sequence of valid frames.  The last byte of the file lies past the 2^30 bytes the
one `Read` transfers, the buffer holds 0 in its place, and the scan reports count 2
and a last valid boundary equal to the file size. -/
theorem C13_scan_accepts_corrupt_frame :
    (frame xxhash64 (zeroPayload (maxRW - 25))
        ++ ([141, 66, 100, 200, 53, 172, 144, 9] ++ [0, 0, 0, 2] ++ [0, 1])).length
      = maxRW + 1 ∧
    sumBytes (xxhash64 ([0, 0, 0, 2] ++ [0, 1])) = [156, 196, 128, 41, 129, 108, 192, 93] ∧
    sumBytes (xxhash64 ([0, 0, 0, 2] ++ [0, 0])) = [141, 66, 100, 200, 53, 172, 144, 9] ∧
    fileScan xxhash64 (frame xxhash64 (zeroPayload (maxRW - 25))
        ++ ([141, 66, 100, 200, 53, 172, 144, 9] ++ [0, 0, 0, 2] ++ [0, 1]))
      = Except.ok (2, maxRW + 1) ∧
    ¬ ∃ recs : List (List Nat × List Nat), recs.length = 2 ∧
        frame xxhash64 (zeroPayload (maxRW - 25))
          ++ ([141, 66, 100, 200, 53, 172, 144, 9] ++ [0, 0, 0, 2] ++ [0, 1])
          = encodeRecords xxhash64 recs ∧
        ∀ r ∈ recs, r.1.length = 4 ∧ uint32 r.1 = r.2.length := by
  have hge := maxRW_ge
  have hle := maxRW_le
  have hv1 : (zeroPayload (maxRW - 25)).length < 2 ^ 32 := by
    rw [zeroPayload_length]
    omega
  have hf1 : (frame xxhash64 (zeroPayload (maxRW - 25))).length = maxRW - 13 := by
    rw [frame_length, zeroPayload_length]
    omega
  have hlen1 : ∀ v ∈ [zeroPayload (maxRW - 25)], v.length < 2 ^ 32 := by
    intro v hv
    rw [List.mem_singleton.mp hv]
    exact hv1
  have hfs1 : frames xxhash64 [zeroPayload (maxRW - 25)]
      = frame xxhash64 (zeroPayload (maxRW - 25)) := by
    simp only [frames, List.append_nil]
  refine ⟨?_, by rfl, by rfl, ?_, ?_⟩
  · rw [List.length_append, hf1]
    simp only [List.length_append, List.length_cons, List.length_nil]
    omega
  · have hsplit : frame xxhash64 (zeroPayload (maxRW - 25))
          ++ ([141, 66, 100, 200, 53, 172, 144, 9] ++ [0, 0, 0, 2] ++ [0, 1])
        = (frame xxhash64 (zeroPayload (maxRW - 25))
            ++ ([141, 66, 100, 200, 53, 172, 144, 9] ++ [0, 0, 0, 2] ++ [0])) ++ [1] := by
      simp only [List.append_assoc, List.cons_append, List.nil_append]
    have hA : (frame xxhash64 (zeroPayload (maxRW - 25))
          ++ ([141, 66, 100, 200, 53, 172, 144, 9] ++ [0, 0, 0, 2] ++ [0])).length = maxRW := by
      rw [List.length_append, hf1]
      simp only [List.length_append, List.length_cons, List.length_nil]
      omega
    have hbuf : readBuffer (frame xxhash64 (zeroPayload (maxRW - 25))
          ++ ([141, 66, 100, 200, 53, 172, 144, 9] ++ [0, 0, 0, 2] ++ [0, 1]))
        = frames xxhash64 [zeroPayload (maxRW - 25), [0, 0]] := by
      rw [hsplit, readBuffer_append _ _ hA]
      simp only [frames, frame_two_zeros, zeroPayload, List.length_singleton,
        List.replicate_one, List.append_assoc, List.cons_append, List.nil_append,
        List.append_nil]
    have hp := parses_frames xxhash64 [zeroPayload (maxRW - 25), [0, 0]] [] 0 0
      (by
        intro v hv
        rcases List.mem_cons.mp hv with rfl | hv'
        · exact hv1
        · rw [List.mem_singleton.mp hv']
          decide)
      (parses_nil xxhash64)
    have hl : (frames xxhash64 [zeroPayload (maxRW - 25), [0, 0]]).length = maxRW + 1 := by
      simp only [frames, List.append_nil, List.length_append, hf1, frame_length,
        List.length_cons, List.length_nil]
      omega
    rw [List.append_nil, hl] at hp
    unfold fileScan
    rw [hbuf]
    exact recoveryScan_of_parses xxhash64 _ _ _ hp
  · rintro ⟨recs, h2, hF, hall⟩
    obtain ⟨c, hc⟩ := parses_encodeRecords xxhash64 recs hall
    rw [← hF, h2] at hc
    have hp1 := parses_frames xxhash64 [zeroPayload (maxRW - 25)]
      ([141, 66, 100, 200, 53, 172, 144, 9] ++ [0, 0, 0, 2] ++ [0, 1]) 0 0 hlen1
      (Parses.stop _ decode_corrupt_tail)
    rw [hfs1] at hp1
    have := (parses_unique xxhash64 _ _ _ hp1 2 c hc).1
    simp at this

set_option maxRecDepth 100000 in
/-- C14 at a failing input: `log.dat` holds one valid 13-byte frame and `data.log`
holds three bytes that are no frame.  `NewPeristentLog("data.log")` returns a handle
and a nil error, leaves `data.log` as it was and cuts `log.dat` to zero bytes. -/
theorem C14_open_truncates_log_dat :
    (twoFileWorld (frame xxhash64 [97])).files "log.dat" = some (frame xxhash64 [97]) ∧
    (frame xxhash64 [97]).length = 13 ∧
    recoveryScan xxhash64 (frame xxhash64 [97]) = Except.ok (1, 13) ∧
    ∃ w1 p1, NewPeristentLog xxhash64 OpenCalls.allSucceed
        (twoFileWorld (frame xxhash64 [97])) "data.log" = Except.ok (w1, Except.ok p1) ∧
      w1.files "data.log" = some [1, 2, 3] ∧ w1.files "log.dat" = some [] :=
  ⟨rfl, rfl, rfl, _, _, rfl, rfl, rfl⟩

theorem scanBody_cases (xx : Sum64) (raw : List Nat) (s : ScanState) :
    (∃ n, 12 ≤ n ∧ s.pos + n ≤ raw.length ∧ scanBody xx raw s = Step.next
        { pos := s.pos + n, lastValidPos := s.pos + n, maxLogIndex := s.maxLogIndex + 1 }) ∨
    (∃ q, scanBody xx raw s = Step.brk
        { pos := q, lastValidPos := s.lastValidPos, maxLogIndex := s.maxLogIndex }) := by
  cases hd : decode xx (raw.drop s.pos) with
  | none => exact Or.inr (scanBody_of_decode_none xx raw s hd)
  | some n =>
    have hb := decode_bounds xx _ n hd
    rw [List.length_drop] at hb
    exact Or.inl ⟨n, hb.1, by omega, scanBody_of_decode_some xx raw s n hd⟩

theorem scanBody_ne_panic (xx : Sum64) (raw : List Nat) (s : ScanState) :
    scanBody xx raw s ≠ Step.panic := by
  rcases scanBody_cases xx raw s with ⟨n, _, _, h⟩ | ⟨q, h⟩ <;> rw [h] <;> simp

theorem scanLoop_ne_indexOutOfRange (xx : Sum64) (raw : List Nat) :
    ∀ (fuel : Nat) (s : ScanState),
      scanLoop xx raw fuel s ≠ Except.error Abort.indexOutOfRange := by
  intro fuel
  induction fuel with
  | zero =>
    intro s
    unfold scanLoop
    split_ifs <;> simp
  | succ f ih =>
    intro s
    unfold scanLoop
    split_ifs
    · rcases scanBody_cases xx raw s with ⟨n, _, _, h⟩ | ⟨q, h⟩
      · rw [h]
        exact ih _
      · rw [h]
        simp
    · simp

/-- C15: whatever the file content and the position, no slice expression of the loop
body is out of range: a slice whose end offset is at most the file size is in bounds,
the body never panics, and neither the loop (for any budget and start state) nor the
scan of the whole file ends with an index out of range. -/
theorem C15_slices_in_bounds (xx : Sum64) (raw : List Nat) :
    (∀ lo n, lo + n ≤ raw.length → slice raw lo (lo + n) = some ((raw.drop lo).take n)) ∧
    (∀ s, scanBody xx raw s ≠ Step.panic) ∧
    (∀ fuel s, scanLoop xx raw fuel s ≠ Except.error Abort.indexOutOfRange) ∧
    (∀ count0, scanFile xx raw count0 ≠ Except.error Abort.indexOutOfRange) ∧
    ∃ k c, recoveryScan xx raw = Except.ok (k, c) :=
  ⟨fun lo n h => slice_eq raw lo n h, scanBody_ne_panic xx raw,
    scanLoop_ne_indexOutOfRange xx raw,
    fun _ => scanLoop_ne_indexOutOfRange xx raw _ _, recoveryScan_total xx raw⟩

/-- C16: an iteration of the loop body that does not break advances `pos` by at least
12 and leaves it at most the file size; with any budget of at least
`filesize / 12 + 1` iterations the loop started at 0 runs to completion with the same
count and boundary, and the count satisfies `12 * count ≤ filesize`. -/
theorem C16_scan_terminates (xx : Sum64) (raw : List Nat) :
    (∀ s s', scanBody xx raw s = Step.next s' →
      s.pos + 12 ≤ s'.pos ∧ s'.pos ≤ raw.length) ∧
    ∃ k c, recoveryScan xx raw = Except.ok (k, c) ∧ 12 * k ≤ raw.length ∧
      ∀ fuel, raw.length / 12 + 1 ≤ fuel →
        ∃ q, scanLoop xx raw fuel { pos := 0, lastValidPos := 0, maxLogIndex := 0 }
          = Except.ok { pos := q, lastValidPos := c, maxLogIndex := k } := by
  constructor
  · intro s s' h
    rcases scanBody_cases xx raw s with ⟨n, h12, hle, hn⟩ | ⟨q, hq⟩
    · rw [hn] at h
      simp only [Step.next.injEq] at h
      subst h
      simp only
      omega
    · rw [hq] at h
      simp at h
  · obtain ⟨k, c, hp⟩ := parses_total xx raw.length raw (Nat.le_refl _)
    have hb := parses_bounds xx raw k c hp
    have hk : k ≤ raw.length / 12 := by
      rw [Nat.le_div_iff_mul_le (by norm_num)]
      omega
    refine ⟨k, c, recoveryScan_of_parses xx raw k c hp, by omega, ?_⟩
    intro fuel hf
    obtain ⟨q, hq⟩ := scanLoop_of_parses xx raw raw k c hp
      ⟨0, 0, 0⟩ fuel (by simp) rfl (by omega)
    exact ⟨q, by simpa using hq⟩

end Plog
